import Mathlib

/-!
# telnet-tty: a shallow embedding of `src/index.mjs`

Bytes are natural numbers, a `Buffer` is a list of bytes, a thrown JavaScript
exception is the `error` side of `Except`.  The private fields of
`TelnetSession`, the variables captured by the socket `'data'` callback and the
observable effects (writes to the socket, emitted events, handler invocations)
are collected in one record that every operation passes along.
-/

namespace TelnetTty

/-! ## Command / option registry -/

/-- The `COMMANDS` table, keys in source order. -/
def COMMANDS : List (String × Nat) :=
  [("SE", 0xF0), ("NOP", 0xF1), ("DM", 0xF2), ("BRK", 0xF3), ("IP", 0xF4), ("AO", 0xF5),
   ("AYT", 0xF6), ("EC", 0xF7), ("EL", 0xF8), ("GA", 0xF9), ("SB", 0xFA), ("WILL", 0xFB),
   ("WONT", 0xFC), ("DO", 0xFD), ("DONT", 0xFE), ("IAC", 0xFF)]

/-- The `OPTIONS` table, keys in source order. -/
def OPTIONS : List (String × Nat) :=
  [("TRANSMIT_BINARY", 0x00), ("ECHO", 0x01), ("RECONNECT", 0x02), ("SUPPRESS_GO_AHEAD", 0x03),
   ("AMSN", 0x04), ("STATUS", 0x05), ("TIMING_MARK", 0x06), ("RCTE", 0x07), ("NAOL", 0x08),
   ("NAOP", 0x09), ("NAOCRD", 0x0A), ("NAOHTS", 0x0B), ("NAOHTD", 0x0C), ("NAOFFD", 0x0D),
   ("NAOVTS", 0x0E), ("NAOVTD", 0x0F), ("NAOLFD", 0x10), ("EXTEND_ASCII", 0x11),
   ("LOGOUT", 0x12), ("BM", 0x13), ("DET", 0x14), ("SUPDUP", 0x15), ("SUPDUP_OUTPUT", 0x16),
   ("SEND_LOCATION", 0x17), ("TERMINAL_TYPE", 0x18), ("END_OF_RECORD", 0x19), ("TUID", 0x1A),
   ("OUTMRK", 0x1B), ("TTYLOC", 0x1C), ("REGIME_3270", 0x1D), ("X3_PAD", 0x1E), ("NAWS", 0x1F),
   ("TERMINAL_SPEED", 0x20), ("TOGGLE_FLOW_CONTROL", 0x21), ("LINEMODE", 0x22),
   ("X_DISPLAY_LOCATION", 0x23), ("ENVIRON", 0x24), ("AUTHENTICATION", 0x25), ("ENCRYPT", 0x26),
   ("NEW_ENVIRON", 0x27), ("TN3270E", 0x28), ("XAUTH", 0x29), ("CHARSET", 0x2A), ("RSP", 0x2B),
   ("COM_PORT_OPTION", 0x2C), ("SLE", 0x2D), ("START_TLS", 0x2E), ("KERMIT", 0x2F),
   ("SEND_URL", 0x30), ("FORWARD_X", 0x31), ("PRAGMA_LOGON", 0x8A), ("SSPI_LOGON", 0x8B),
   ("PRAGMA_HEARTBEAT", 0x8C), ("EXOPL", 0xFF)]

/-- JavaScript `key.toLowerCase()` on the ASCII keys of the tables. -/
def toLowerCase (key : String) : String := String.mk (key.data.map Char.toLower)

/-- The reducer `Object.keys(T).reduce((out, key) => { out[T[key]] = key.toLowerCase(); return out }, {})`
read at index `value`: every key whose value is `value` overwrites the entry, so
the last one in source order stays; `none` is JavaScript `undefined`. -/
def reverseNames (table : List (String × Nat)) (value : Nat) : Option String :=
  table.foldl (fun out kv => if kv.2 = value then some (toLowerCase kv.1) else out) none

/-- The table `COMMAND_NAMES`, from command code to lower-case name. -/
def COMMAND_NAMES (value : Nat) : Option String := reverseNames COMMANDS value

/-- The table `OPTION_NAMES`, from option code to lower-case name. -/
def OPTION_NAMES (value : Nat) : Option String := reverseNames OPTIONS value

/-- Property read `T[key]` on a table; `none` is `undefined`. -/
def tableGet (table : List (String × Nat)) (key : String) : Option Nat :=
  (table.find? (fun kv => kv.1 == key)).map Prod.snd

/-- A table entry stored into a byte of a `Buffer`: `undefined` is stored as 0. -/
def tableByte (table : List (String × Nat)) (key : String) : Nat :=
  (tableGet table key).getD 0

/-- JavaScript truthiness of a table read: `undefined` and the empty string are falsy. -/
def truthy : Option String → Bool
  | none => false
  | some name => name != ""

/-- The byte `COMMANDS.IAC`. -/
def IAC : Nat := tableByte COMMANDS "IAC"
/-- The byte `COMMANDS.SB`. -/
def SB : Nat := tableByte COMMANDS "SB"
/-- The byte `COMMANDS.SE`. -/
def SE : Nat := tableByte COMMANDS "SE"

/-! ## Decoder states -/

abbrev DECODE_IDLE : Nat := 0
abbrev DECODE_COMMAND : Nat := 1
abbrev DECODE_OPTION : Nat := 2
abbrev DECODE_SUBNEGOTIATION : Nat := 3
abbrev DECODE_SUBNEGOTIATION_END : Nat := 4
abbrev DECODE_IGNORE_2 : Nat := 5
abbrev DECODE_IGNORE_1 : Nat := 6

/-! ## Session state and effects -/

/-- A JavaScript exception raised by the embedded code. -/
inductive JsError where
  | typeError
  | rangeError
  deriving DecidableEq, Repr

/-- A value handed to `_write` or to `socket.write`: a `Buffer`, a primitive
string, or a `String` wrapper object (`new String(...)`); only the last one
is `instanceof String`. -/
inductive Chunk where
  | buffer (bytes : List Nat)
  | str (text : String)
  | stringObject (text : String)
  deriving DecidableEq, Repr

/-- An event emitted by the session (`this.emit(...)`). -/
inductive Event where
  | resize
  | data (payload : List Nat)
  | close
  | error
  deriving DecidableEq, Repr

/-- The handlers registered in `#c2s`. -/
inductive Handler where
  | naws
  deriving DecidableEq, Repr

/-- The private fields of `TelnetSession` (`isRaw`, `isTTY`, `columns`, `rows`),
the variables captured by the `'data'` callback (`decode`, `command`, `option`,
`param`, `len`; `param` is `none` while it is `undefined`), and the trace of
effects: `written` lists the `socket.write` calls, `emitted` the events,
`calls` the handler invocations with their argument, each in order. -/
structure TelnetSession where
  isRaw : Bool
  isTTY : Bool
  columns : Nat
  rows : Nat
  decode : Nat
  command : Nat
  option : Nat
  param : Option (List Nat)
  len : Nat
  written : List Chunk
  emitted : List Event
  calls : List (Handler × List Nat)
  deriving DecidableEq, Repr

/-- The locals of one run of the `'data'` callback: `buffer` and `buflen`. -/
structure RxLocals where
  buffer : List Nat
  buflen : Nat
  deriving DecidableEq, Repr

/-- The call `Buffer.alloc(size)`: a zero-filled buffer. -/
def Buffer.alloc (size : Nat) : List Nat := List.replicate size 0

/-- The call `buf.slice(0, end)`; `end` is clamped to the length of the buffer. -/
def Buffer.slice0 (buf : List Nat) (stop : Nat) : List Nat := buf.take stop

/-- The assignment `buf[index] = value`; an index past the end stores nothing. -/
def Buffer.store (buf : List Nat) (index value : Nat) : List Nat := buf.set index value

/-- The call `data.readUInt16BE(offset)`; it throws when two bytes are not available. -/
def readUInt16BE (data : List Nat) (offset : Nat) : Except JsError Nat :=
  if offset + 2 ≤ data.length then
    .ok (data.getD offset 0 * 256 + data.getD (offset + 1) 0)
  else
    .error .rangeError

/-! ## Negotiation sender -/

/-- The closure `#send`: one `socket.write` of the data. -/
def send (s : TelnetSession) (data : Chunk) : TelnetSession :=
  { s with written := s.written ++ [data] }

/-- The body of the closure stored at `#s2c[cmdName][optName]`, for the
captured `commandName` and `optionName`. -/
def s2cEntry (commandName optionName : String) (s : TelnetSession) : TelnetSession :=
  let buf := Buffer.alloc 3
  let buf := Buffer.store buf 0 IAC
  let buf := Buffer.store buf 1 (tableByte COMMANDS commandName)
  let buf := Buffer.store buf 2 (tableByte OPTIONS optionName)
  send s (Chunk.buffer buf)

/-- The command names the constructor iterates over to fill `#s2c`. -/
def negotiationCommands : List String := ["DO", "DONT", "WILL", "WONT"]

/-- The call `this.#s2c[cmdName][optName]()`: the entry written last under these
lower-case keys; a missing entry makes the call throw. -/
def s2c (cmdName optName : String) (s : TelnetSession) : Except JsError TelnetSession :=
  match (negotiationCommands.filter (fun c => toLowerCase c == cmdName)).getLast?,
        ((OPTIONS.map Prod.fst).filter (fun o => toLowerCase o == optName)).getLast? with
  | some commandName, some optionName => .ok (s2cEntry commandName optionName s)
  | _, _ => .error .typeError

/-- The method `setRawMode(mode)`. -/
def setRawMode (s : TelnetSession) (mode : Bool) : Except JsError TelnetSession := do
  let s := { s with isRaw := mode }
  if mode then
    let s ← s2c "do" "suppress_go_ahead" s
    let s ← s2c "will" "suppress_go_ahead" s
    s2c "will" "echo" s
  else
    let s ← s2c "dont" "suppress_go_ahead" s
    let s ← s2c "wont" "suppress_go_ahead" s
    s2c "wont" "echo" s

/-- The method `getWindowSize()`. -/
def getWindowSize (s : TelnetSession) : List Nat := [s.columns, s.rows]

/-! ## Negotiation handlers -/

/-- The handler `#c2s.naws`. -/
def naws (s : TelnetSession) (data : List Nat) : Except JsError TelnetSession :=
  if data.length < 4 then
    .ok s
  else do
    let columns ← readUInt16BE data 0
    let s := { s with columns := columns }
    let rows ← readUInt16BE data 2
    let s := { s with rows := rows }
    .ok { s with emitted := s.emitted ++ [Event.resize] }

/-- The read `this.#c2s[name]`: only `naws` is registered; an `undefined` name
reads the key `"undefined"`, which is not registered either. -/
def c2s (name : Option String) : Option Handler :=
  if name = some "naws" then some Handler.naws else none

/-- The call `handler(data)`, recorded in `calls`. -/
def invoke (h : Handler) (s : TelnetSession) (data : List Nat) : Except JsError TelnetSession :=
  match h with
  | Handler.naws => naws { s with calls := s.calls ++ [(Handler.naws, data)] } data

/-! ## Decoder -/

/-- The body of `case DECODE_SUBNEGOTIATION`. -/
def decodeSubnegotiation (s : TelnetSession) (char : Nat) : Except JsError TelnetSession :=
  if char = IAC then
    .ok { s with decode := DECODE_SUBNEGOTIATION_END }
  else
    match s.param with
    | none => .error .typeError
    | some param => .ok { s with param := some (Buffer.store param s.len char), len := s.len + 1 }

/-- One iteration of `for (const char of data)`: the `switch (decode)`. -/
def decodeChar (s : TelnetSession) (l : RxLocals) (char : Nat) :
    Except JsError (TelnetSession × RxLocals) :=
  if s.decode = DECODE_IDLE then
    if char = IAC then
      .ok ({ s with command := 0, option := 0, decode := DECODE_COMMAND }, l)
    else
      .ok (s, { buffer := Buffer.store l.buffer l.buflen char, buflen := l.buflen + 1 })
  else if s.decode = DECODE_COMMAND then
    if truthy (COMMAND_NAMES char) then
      .ok ({ s with command := char, decode := DECODE_OPTION }, l)
    else
      .ok ({ s with decode := DECODE_IGNORE_2 }, l)
  else if s.decode = DECODE_OPTION then
    let s := { s with option := char }
    if s.command = SB then
      .ok ({ s with param := some (Buffer.alloc 128), len := 0, decode := DECODE_SUBNEGOTIATION }, l)
    else
      match c2s (OPTION_NAMES s.option) with
      | some handler => do
          let s ← invoke handler s [s.command, s.option]
          .ok ({ s with decode := DECODE_IDLE }, l)
      | none => .ok ({ s with decode := DECODE_IDLE }, l)
  else if s.decode = DECODE_SUBNEGOTIATION_END then
    if char = SE then
      match c2s (OPTION_NAMES s.option) with
      | some handler =>
          match s.param with
          | none => .error .typeError
          | some param => do
              let s ← invoke handler s (Buffer.slice0 param s.len)
              .ok ({ s with decode := DECODE_IDLE }, l)
      | none => .ok ({ s with decode := DECODE_IDLE }, l)
    else do
      let s ← decodeSubnegotiation { s with decode := DECODE_SUBNEGOTIATION } char
      .ok (s, l)
  else if s.decode = DECODE_SUBNEGOTIATION then do
    let s ← decodeSubnegotiation s char
    .ok (s, l)
  else if s.decode = DECODE_IGNORE_2 then
    .ok ({ s with decode := DECODE_IGNORE_1 }, l)
  else if s.decode = DECODE_IGNORE_1 then
    .ok ({ s with decode := DECODE_IDLE }, l)
  else
    .ok (s, l)

/-- The loop `for (const char of data)`. -/
def decodeLoop (s : TelnetSession) (l : RxLocals) : List Nat →
    Except JsError (TelnetSession × RxLocals)
  | [] => .ok (s, l)
  | char :: rest =>
    match decodeChar s l char with
    | .ok (s1, l1) => decodeLoop s1 l1 rest
    | .error e => .error e

/-- The socket `'data'` callback. -/
def onData (s : TelnetSession) (data : List Nat) : Except JsError TelnetSession :=
  match decodeLoop s { buffer := Buffer.alloc data.length, buflen := 0 } data with
  | .ok (s1, l) =>
    if l.buflen ≠ 0 then
      .ok { s1 with emitted := s1.emitted ++ [Event.data (Buffer.slice0 l.buffer l.buflen)] }
    else
      .ok s1
  | .error e => .error e

/-- The socket `'close'` callback. -/
def onClose (s : TelnetSession) : TelnetSession :=
  { s with emitted := s.emitted ++ [Event.close] }

/-- The socket `'error'` callback. -/
def onError (s : TelnetSession) : TelnetSession :=
  { s with emitted := s.emitted ++ [Event.error] }

/-- The `'data'` callback run on each chunk of a list, in order. -/
def feed (s : TelnetSession) : List (List Nat) → Except JsError TelnetSession
  | [] => .ok s
  | data :: rest =>
    match onData s data with
    | .ok s1 => feed s1 rest
    | .error e => .error e

/-! ## Construction and the write side -/

/-- The field initialisers of the class and of the decoder variables. -/
def fieldDefaults : TelnetSession :=
  { isRaw := true, isTTY := true, columns := 80, rows := 24,
    decode := DECODE_IDLE, command := 0, option := 0, param := none, len := 0,
    written := [], emitted := [], calls := [] }

/-- The constructor `new TelnetSession(socket)`. -/
def construct : Except JsError TelnetSession := do
  let s ← setRawMode fieldDefaults true
  let s ← s2c "do" "transmit_binary" s
  let s ← s2c "do" "terminal_type" s
  let s ← s2c "do" "naws" s
  let s ← s2c "do" "new_environ" s
  .ok { s with decode := DECODE_IDLE, command := 0, option := 0, param := none, len := 0 }

/-- The replacement `chunk.replace(/\r?\n/g, '\r\n')` on the characters of a string. -/
def replaceLineEndings : List Char → List Char
  | '\r' :: '\n' :: rest => '\r' :: '\n' :: replaceLineEndings rest
  | '\n' :: rest => '\r' :: '\n' :: replaceLineEndings rest
  | c :: rest => c :: replaceLineEndings rest
  | [] => []

/-- The method `_write(chunk, encoding, callback)`: the replacement runs only
when `chunk instanceof String`. -/
def _write (s : TelnetSession) (chunk : Chunk) : TelnetSession :=
  match chunk with
  | Chunk.stringObject text => send s (Chunk.str (String.mk (replaceLineEndings text.data)))
  | other => send s other

/-- The concatenation of the payloads of the `'data'` events of a trace. -/
def payloadOf : List Event → List Nat
  | [] => []
  | Event.data payload :: rest => payload ++ payloadOf rest
  | _ :: rest => payloadOf rest

/-- The number of `'resize'` events of a trace. -/
def resizeCount (events : List Event) : Nat := events.count Event.resize

/-! ## Auxiliary functions used to state and prove the properties -/

/-- The session the constructor returns (`construct_eq`). -/
def freshSession : TelnetSession :=
  { fieldDefaults with
    written := [Chunk.buffer [0xFF, 0xFD, 0x03], Chunk.buffer [0xFF, 0xFB, 0x03],
                Chunk.buffer [0xFF, 0xFB, 0x01], Chunk.buffer [0xFF, 0xFD, 0x00],
                Chunk.buffer [0xFF, 0xFD, 0x18], Chunk.buffer [0xFF, 0xFD, 0x1F],
                Chunk.buffer [0xFF, 0xFD, 0x27]] }

/-- The subnegotiation buffer exists whenever the decoder is inside a subnegotiation. -/
def Allocated (s : TelnetSession) : Prop :=
  (s.decode = DECODE_SUBNEGOTIATION ∨ s.decode = DECODE_SUBNEGOTIATION_END) → s.param ≠ none

instance (s : TelnetSession) : Decidable (Allocated s) :=
  inferInstanceAs (Decidable
    ((s.decode = DECODE_SUBNEGOTIATION ∨ s.decode = DECODE_SUBNEGOTIATION_END) → s.param ≠ none))

/-- The payload byte one decoder step stores into `buffer`, if any. -/
def payloadByte (s : TelnetSession) (char : Nat) : List Nat :=
  if s.decode = DECODE_IDLE ∧ char ≠ IAC then [char] else []

/-- The statement `buffer[buflen++] = char` repeated for each byte of a list. -/
def pushBytes (l : RxLocals) : List Nat → RxLocals
  | [] => l
  | b :: rest => pushBytes { buffer := Buffer.store l.buffer l.buflen b, buflen := l.buflen + 1 } rest

/-- The session after one decoder step, the locals left aside. -/
def stepSession (s : TelnetSession) (char : Nat) : Except JsError TelnetSession :=
  match decodeChar s { buffer := [], buflen := 0 } char with
  | .ok (s1, _) => .ok s1
  | .error e => .error e

/-- The session after the decoder steps of a byte sequence, with the payload bytes met. -/
def runSession (s : TelnetSession) : List Nat → Except JsError (TelnetSession × List Nat)
  | [] => .ok (s, [])
  | char :: rest =>
    match stepSession s char with
    | .ok s1 =>
      match runSession s1 rest with
      | .ok (s2, out) => .ok (s2, payloadByte s char ++ out)
      | .error e => .error e
    | .error e => .error e

/-- The session with an empty event trace. -/
def clearEmitted (s : TelnetSession) : TelnetSession := { s with emitted := [] }

/-- The session with earlier events put before its event trace. -/
def prependEmitted (earlier : List Event) (s : TelnetSession) : TelnetSession :=
  { s with emitted := earlier ++ s.emitted }

/-- The events of a trace other than `'data'`. -/
def nonData : List Event → List Event
  | [] => []
  | Event.data _ :: rest => nonData rest
  | e :: rest => e :: nonData rest

/-- The session the NAWS handler leaves behind (`naws_eq`). -/
def nawsResult (s : TelnetSession) (data : List Nat) : TelnetSession :=
  if data.length < 4 then s else
    { s with columns := data.getD 0 0 * 256 + data.getD 1 0,
             rows := data.getD 2 0 * 256 + data.getD 3 0,
             emitted := s.emitted ++ [Event.resize] }

/-! ## Registry facts -/

theorem IAC_eq : IAC = 0xFF := by decide

theorem SB_eq : SB = 0xFA := by decide

theorem SE_eq : SE = 0xF0 := by decide

theorem reverseNames_foldl_not_mem (value : Nat) (table : List (String × Nat))
    (acc : Option String) (h : value ∉ table.map Prod.snd) :
    table.foldl (fun out kv => if kv.2 = value then some (toLowerCase kv.1) else out) acc = acc := by
  induction table generalizing acc with
  | nil => rfl
  | cons kv rest ih =>
    simp only [List.map_cons, List.mem_cons, not_or] at h
    have hne : ¬ kv.2 = value := fun e => h.1 e.symm
    simp only [List.foldl_cons, if_neg hne]
    exact ih acc h.2

theorem reverseNames_foldl_some (value : Nat) (table : List (String × Nat))
    (acc : Option String) (name : String)
    (h : table.foldl (fun out kv => if kv.2 = value then some (toLowerCase kv.1) else out) acc
          = some name) :
    acc = some name ∨ ∃ kv ∈ table, kv.2 = value ∧ toLowerCase kv.1 = name := by
  induction table generalizing acc with
  | nil => exact Or.inl h
  | cons kv rest ih =>
    simp only [List.foldl_cons] at h
    rcases ih _ h with h1 | ⟨kv1, hmem, hv, hn⟩
    · by_cases hkv : kv.2 = value
      · rw [if_pos hkv] at h1
        exact Or.inr ⟨kv, List.mem_cons_self _ _, hkv, Option.some.inj h1⟩
      · rw [if_neg hkv] at h1
        exact Or.inl h1
    · exact Or.inr ⟨kv1, List.mem_cons_of_mem _ hmem, hv, hn⟩

theorem reverseNames_foldl_mem (value : Nat) (table : List (String × Nat))
    (acc : Option String) (h : value ∈ table.map Prod.snd) :
    ∃ kv ∈ table,
      table.foldl (fun out kv => if kv.2 = value then some (toLowerCase kv.1) else out) acc
        = some (toLowerCase kv.1) := by
  induction table generalizing acc with
  | nil => simp at h
  | cons kv rest ih =>
    simp only [List.foldl_cons]
    by_cases hrest : value ∈ rest.map Prod.snd
    · obtain ⟨kv1, hmem, heq⟩ := ih _ hrest
      exact ⟨kv1, List.mem_cons_of_mem _ hmem, heq⟩
    · have hkv : kv.2 = value := by
        simp only [List.map_cons, List.mem_cons] at h
        rcases h with h | h
        · exact h.symm
        · exact absurd h hrest
      refine ⟨kv, List.mem_cons_self _ _, ?_⟩
      rw [reverseNames_foldl_not_mem value rest _ hrest, if_pos hkv]

/-- A byte is truthy in `COMMAND_NAMES` exactly when it is a value of `COMMANDS`. -/
theorem truthy_COMMAND_NAMES (char : Nat) :
    truthy (COMMAND_NAMES char) = true ↔ char ∈ COMMANDS.map Prod.snd := by
  constructor
  · intro h
    by_contra hn
    rw [COMMAND_NAMES, reverseNames, reverseNames_foldl_not_mem char COMMANDS none hn] at h
    simp [truthy] at h
  · intro h
    obtain ⟨kv, hmem, heq⟩ := reverseNames_foldl_mem char COMMANDS none h
    rw [COMMAND_NAMES, reverseNames, heq]
    have hall : ∀ kv ∈ COMMANDS, truthy (some (toLowerCase kv.1)) = true := by decide
    exact hall kv hmem

theorem truthy_COMMAND_NAMES_false (char : Nat) (h : char ∉ COMMANDS.map Prod.snd) :
    truthy (COMMAND_NAMES char) = false := by
  cases ht : truthy (COMMAND_NAMES char) with
  | false => rfl
  | true => exact absurd ((truthy_COMMAND_NAMES char).1 ht) h

/-- Only option NAWS (0x1F) has a registered handler. -/
theorem c2s_OPTION_NAMES (o : Nat) :
    c2s (OPTION_NAMES o) = if o = 0x1F then some Handler.naws else none := by
  by_cases ho : o = 0x1F
  · subst ho
    decide
  · rw [if_neg ho]
    unfold c2s
    rw [if_neg]
    intro h
    rcases reverseNames_foldl_some o OPTIONS none "naws" h with h1 | ⟨kv, hmem, hv, hn⟩
    · cases h1
    · have hall : ∀ kv ∈ OPTIONS, toLowerCase kv.1 = "naws" → kv.2 = 0x1F := by decide
      exact ho (hv ▸ hall kv hmem hn)

theorem construct_eq : construct = .ok freshSession := by rfl

/-! ## The NAWS handler never throws -/


theorem naws_eq (s : TelnetSession) (data : List Nat) :
    naws s data = .ok (nawsResult s data) := by
  unfold naws nawsResult
  by_cases h : data.length < 4
  · simp [h]
  · have h2 : 0 + 2 ≤ data.length := by omega
    have h4 : 2 + 2 ≤ data.length := by omega
    simp only [h, if_false, readUInt16BE, h2, h4, if_true]
    rfl

theorem invoke_eq (h : Handler) (s : TelnetSession) (data : List Nat) :
    invoke h s data = .ok (nawsResult { s with calls := s.calls ++ [(Handler.naws, data)] } data) := by
  cases h
  simp [invoke, naws_eq]

theorem decodeChar_eq (s : TelnetSession) (l : RxLocals) (char : Nat) :
    decodeChar s l char =
      match stepSession s char with
      | .ok s1 => .ok (s1, pushBytes l (payloadByte s char))
      | .error e => .error e := by
  unfold stepSession decodeChar payloadByte
  simp only [c2s_OPTION_NAMES, invoke_eq, decodeSubnegotiation, IAC_eq, SB_eq, SE_eq]
  by_cases h0 : s.decode = 0
  · simp only [h0, if_true]
    by_cases hc : char = 255
    · simp [hc, pushBytes]
    · simp [hc, pushBytes]
  by_cases h1 : s.decode = 1
  · simp only [h1]
    by_cases hk : truthy (COMMAND_NAMES char) = true
    · simp [hk, pushBytes]
    · simp [hk, pushBytes]
  by_cases h2 : s.decode = 2
  · simp only [h2]
    by_cases hsb : s.command = 250
    · simp [hsb, pushBytes]
    · by_cases hn : char = 31
      · simp [hsb, hn, pushBytes, bind, Except.bind]
      · simp [hsb, hn, pushBytes, bind, Except.bind]
  by_cases h4 : s.decode = 4
  · simp only [h4]
    by_cases hse : char = 240
    · by_cases hn : s.option = 31
      · cases hp : s.param <;> simp [hse, hn, hp, pushBytes, bind, Except.bind]
      · simp [hse, hn, pushBytes, bind, Except.bind]
    · by_cases hc : char = 255
      · simp [hse, hc, pushBytes, bind, Except.bind]
      · cases hp : s.param <;> simp [hse, hc, hp, pushBytes, bind, Except.bind]
  by_cases h3 : s.decode = 3
  · simp only [h3]
    by_cases hc : char = 255
    · simp [hc, pushBytes, bind, Except.bind]
    · cases hp : s.param <;> simp [hc, hp, pushBytes, bind, Except.bind]
  by_cases h5 : s.decode = 5
  · simp [h5, pushBytes]
  by_cases h6 : s.decode = 6
  · simp [h6, pushBytes]
  simp [h0, h1, h2, h3, h4, h5, h6, pushBytes]


/-! ## One decoder step, state by state -/

theorem stepSession_idle_iac (s : TelnetSession) (h : s.decode = 0) :
    stepSession s 255 = .ok { s with command := 0, option := 0, decode := 1 } := by
  simp [stepSession, decodeChar, h, IAC_eq]

theorem stepSession_idle_payload (s : TelnetSession) (char : Nat) (h : s.decode = 0)
    (hc : char ≠ 255) : stepSession s char = .ok s := by
  simp [stepSession, decodeChar, h, IAC_eq, hc]

theorem stepSession_command_known (s : TelnetSession) (char : Nat) (h : s.decode = 1)
    (hk : char ∈ COMMANDS.map Prod.snd) :
    stepSession s char = .ok { s with command := char, decode := 2 } := by
  have ht := (truthy_COMMAND_NAMES char).2 hk
  simp [stepSession, decodeChar, h, ht]

theorem stepSession_command_unknown (s : TelnetSession) (char : Nat) (h : s.decode = 1)
    (hk : char ∉ COMMANDS.map Prod.snd) :
    stepSession s char = .ok { s with decode := 5 } := by
  have ht := truthy_COMMAND_NAMES_false char hk
  simp [stepSession, decodeChar, h, ht]

theorem stepSession_option_sb (s : TelnetSession) (char : Nat) (h : s.decode = 2)
    (hsb : s.command = 250) :
    stepSession s char =
      .ok { s with option := char, param := some (Buffer.alloc 128), len := 0, decode := 3 } := by
  simp [stepSession, decodeChar, h, hsb, SB_eq]

theorem stepSession_option_naws (s : TelnetSession) (h : s.decode = 2) (hsb : s.command ≠ 250) :
    stepSession s 31 =
      .ok { s with option := 31, calls := s.calls ++ [(Handler.naws, [s.command, 31])],
                   decode := 0 } := by
  simp [stepSession, decodeChar, h, hsb, SB_eq, c2s_OPTION_NAMES, invoke_eq, nawsResult, bind,
    Except.bind]

theorem stepSession_option_other (s : TelnetSession) (char : Nat) (h : s.decode = 2)
    (hsb : s.command ≠ 250) (hn : char ≠ 31) :
    stepSession s char = .ok { s with option := char, decode := 0 } := by
  simp [stepSession, decodeChar, h, hsb, SB_eq, c2s_OPTION_NAMES, hn]

theorem stepSession_sub_iac (s : TelnetSession) (h : s.decode = 3) :
    stepSession s 255 = .ok { s with decode := 4 } := by
  simp [stepSession, decodeChar, decodeSubnegotiation, h, IAC_eq, bind, Except.bind]

theorem stepSession_sub_store (s : TelnetSession) (char : Nat) (p : List Nat) (h : s.decode = 3)
    (hc : char ≠ 255) (hp : s.param = some p) :
    stepSession s char =
      .ok { s with param := some (Buffer.store p s.len char), len := s.len + 1 } := by
  simp [stepSession, decodeChar, decodeSubnegotiation, h, IAC_eq, hc, hp, bind, Except.bind]

theorem stepSession_sub_undefined (s : TelnetSession) (char : Nat) (h : s.decode = 3)
    (hc : char ≠ 255) (hp : s.param = none) :
    stepSession s char = .error JsError.typeError := by
  simp [stepSession, decodeChar, decodeSubnegotiation, h, IAC_eq, hc, hp, bind, Except.bind]

theorem stepSession_end_se_naws (s : TelnetSession) (p : List Nat) (h : s.decode = 4)
    (ho : s.option = 31) (hp : s.param = some p) :
    stepSession s 240 =
      .ok { nawsResult { s with calls := s.calls ++ [(Handler.naws, Buffer.slice0 p s.len)] }
              (Buffer.slice0 p s.len) with decode := 0 } := by
  simp [stepSession, decodeChar, h, SE_eq, c2s_OPTION_NAMES, ho, hp, invoke_eq, bind, Except.bind]

theorem stepSession_end_se_undefined (s : TelnetSession) (h : s.decode = 4)
    (ho : s.option = 31) (hp : s.param = none) :
    stepSession s 240 = .error JsError.typeError := by
  simp [stepSession, decodeChar, h, SE_eq, c2s_OPTION_NAMES, ho, hp]

theorem stepSession_end_se_other (s : TelnetSession) (h : s.decode = 4) (ho : s.option ≠ 31) :
    stepSession s 240 = .ok { s with decode := 0 } := by
  simp [stepSession, decodeChar, h, SE_eq, c2s_OPTION_NAMES, ho]

theorem stepSession_end_iac (s : TelnetSession) (h : s.decode = 4) :
    stepSession s 255 = .ok { s with decode := 4 } := by
  simp [stepSession, decodeChar, decodeSubnegotiation, h, SE_eq, IAC_eq, bind, Except.bind]

theorem stepSession_end_store (s : TelnetSession) (char : Nat) (p : List Nat) (h : s.decode = 4)
    (hse : char ≠ 240) (hc : char ≠ 255) (hp : s.param = some p) :
    stepSession s char =
      .ok { s with decode := 3, param := some (Buffer.store p s.len char), len := s.len + 1 } := by
  simp [stepSession, decodeChar, decodeSubnegotiation, h, SE_eq, IAC_eq, hse, hc, hp, bind,
    Except.bind]

theorem stepSession_end_undefined (s : TelnetSession) (char : Nat) (h : s.decode = 4)
    (hse : char ≠ 240) (hc : char ≠ 255) (hp : s.param = none) :
    stepSession s char = .error JsError.typeError := by
  simp [stepSession, decodeChar, decodeSubnegotiation, h, SE_eq, IAC_eq, hse, hc, hp, bind,
    Except.bind]

theorem stepSession_ignore2 (s : TelnetSession) (char : Nat) (h : s.decode = 5) :
    stepSession s char = .ok { s with decode := 6 } := by
  simp [stepSession, decodeChar, h]

theorem stepSession_ignore1 (s : TelnetSession) (char : Nat) (h : s.decode = 6) :
    stepSession s char = .ok { s with decode := 0 } := by
  simp [stepSession, decodeChar, h]

theorem stepSession_inert (s : TelnetSession) (char : Nat) (h : 6 < s.decode) :
    stepSession s char = .ok s := by
  have h0 : s.decode ≠ 0 := by omega
  have h1 : s.decode ≠ 1 := by omega
  have h2 : s.decode ≠ 2 := by omega
  have h3 : s.decode ≠ 3 := by omega
  have h4 : s.decode ≠ 4 := by omega
  have h5 : s.decode ≠ 5 := by omega
  have h6 : s.decode ≠ 6 := by omega
  simp [stepSession, decodeChar, h0, h1, h2, h3, h4, h5, h6]


/-! ## The loop over a chunk -/

theorem runSession_nil (s : TelnetSession) : runSession s [] = .ok (s, []) := rfl

theorem runSession_cons_ok (s s1 : TelnetSession) (char : Nat) (rest : List Nat)
    (h : stepSession s char = .ok s1) :
    runSession s (char :: rest) =
      match runSession s1 rest with
      | .ok (s2, out) => .ok (s2, payloadByte s char ++ out)
      | .error e => .error e := by
  simp [runSession, h]

theorem runSession_cons_error (s : TelnetSession) (char : Nat) (rest : List Nat) (e : JsError)
    (h : stepSession s char = .error e) :
    runSession s (char :: rest) = .error e := by
  simp [runSession, h]

theorem runSession_append (s : TelnetSession) (xs ys : List Nat) :
    runSession s (xs ++ ys) =
      match runSession s xs with
      | .ok (s1, out1) =>
        match runSession s1 ys with
        | .ok (s2, out2) => .ok (s2, out1 ++ out2)
        | .error e => .error e
      | .error e => .error e := by
  induction xs generalizing s with
  | nil =>
    simp only [List.nil_append, runSession_nil]
    cases runSession s ys with
    | error e => rfl
    | ok r => rfl
  | cons x xs ih =>
    cases hstep : stepSession s x with
    | error e => simp [runSession, hstep]
    | ok s1 =>
      rw [List.cons_append, runSession_cons_ok _ _ _ _ hstep, runSession_cons_ok _ _ _ _ hstep,
        ih s1]
      cases runSession s1 xs with
      | error e => rfl
      | ok r1 =>
        obtain ⟨t1, o1⟩ := r1
        cases hys : runSession t1 ys <;> simp [hys]

theorem payloadByte_length (s : TelnetSession) (char : Nat) : (payloadByte s char).length ≤ 1 := by
  unfold payloadByte
  split_ifs <;> simp

theorem runSession_length (s t : TelnetSession) (data out : List Nat)
    (h : runSession s data = .ok (t, out)) : out.length ≤ data.length := by
  induction data generalizing s out with
  | nil =>
    simp only [runSession_nil, Except.ok.injEq, Prod.mk.injEq] at h
    simp [← h.2]
  | cons x xs ih =>
    cases hstep : stepSession s x with
    | error e => simp [runSession, hstep] at h
    | ok s1 =>
      cases hrun : runSession s1 xs with
      | error e => simp [runSession, hstep, hrun] at h
      | ok r =>
        obtain ⟨t1, o1⟩ := r
        simp only [runSession, hstep, hrun, Except.ok.injEq, Prod.mk.injEq] at h
        rw [h.1] at hrun
        have h1 := ih s1 o1 hrun
        have h2 := payloadByte_length s x
        rw [← h.2, List.length_append, List.length_cons]
        omega

theorem runSession_idle_payload (s : TelnetSession) (p : List Nat) (h : s.decode = 0)
    (hp : ∀ b ∈ p, b ≠ 255) : runSession s p = .ok (s, p) := by
  induction p with
  | nil => rfl
  | cons x xs ih =>
    have hx : x ≠ 255 := hp x (List.mem_cons_self _ _)
    have hxs : ∀ b ∈ xs, b ≠ 255 := fun b hb => hp b (List.mem_cons_of_mem _ hb)
    rw [runSession_cons_ok s s x xs (stepSession_idle_payload s x h hx), ih hxs]
    simp [payloadByte, h, IAC_eq, hx]

theorem pushBytes_append (l : RxLocals) (xs ys : List Nat) :
    pushBytes l (xs ++ ys) = pushBytes (pushBytes l xs) ys := by
  induction xs generalizing l with
  | nil => rfl
  | cons x xs ih => simp [pushBytes, ih]

theorem pushBytes_buflen (l : RxLocals) (out : List Nat) :
    (pushBytes l out).buflen = l.buflen + out.length := by
  induction out generalizing l with
  | nil => rfl
  | cons x xs ih =>
    simp only [pushBytes, ih, List.length_cons]
    omega

theorem pushBytes_buffer_length (l : RxLocals) (out : List Nat) :
    (pushBytes l out).buffer.length = l.buffer.length := by
  induction out generalizing l with
  | nil => rfl
  | cons x xs ih => simp [pushBytes, ih, Buffer.store]

theorem pushBytes_slice (l : RxLocals) (out : List Nat)
    (h : l.buflen + out.length ≤ l.buffer.length) :
    Buffer.slice0 (pushBytes l out).buffer (pushBytes l out).buflen
      = Buffer.slice0 l.buffer l.buflen ++ out := by
  induction out generalizing l with
  | nil => simp [pushBytes]
  | cons x xs ih =>
    simp only [List.length_cons] at h
    have hlt : l.buflen < l.buffer.length := by omega
    simp only [pushBytes]
    rw [ih]
    · simp only [Buffer.slice0, Buffer.store]
      rw [List.take_succ]
      have hset : List.take l.buflen (l.buffer.set l.buflen x) = List.take l.buflen l.buffer := by
        rw [List.set_take, List.set_eq_of_length_le (by simp)]
      simp [hlt, hset]
    · simp only [Buffer.store, List.length_set]
      omega


theorem decodeLoop_eq (s : TelnetSession) (l : RxLocals) (data : List Nat) :
    decodeLoop s l data =
      match runSession s data with
      | .ok (t, out) => .ok (t, pushBytes l out)
      | .error e => .error e := by
  induction data generalizing s l with
  | nil => rfl
  | cons x xs ih =>
    rw [decodeLoop, decodeChar_eq]
    cases hstep : stepSession s x with
    | error e => simp [runSession, hstep]
    | ok s1 =>
      simp only [runSession, hstep, ih]
      cases hrun : runSession s1 xs with
      | error e => rfl
      | ok r =>
        obtain ⟨t, out⟩ := r
        simp [pushBytes_append]

/-- The `'data'` callback in terms of the byte-level run: the payload bytes of
the chunk are emitted as one `'data'` event, unless there is none. -/
theorem onData_eq (s : TelnetSession) (data : List Nat) :
    onData s data =
      match runSession s data with
      | .ok (t, out) =>
        .ok (if out ≠ [] then { t with emitted := t.emitted ++ [Event.data out] } else t)
      | .error e => .error e := by
  rw [onData, decodeLoop_eq]
  cases hrun : runSession s data with
  | error e => rfl
  | ok r =>
    obtain ⟨t, out⟩ := r
    have hlen := runSession_length s t data out hrun
    have hslice := pushBytes_slice { buffer := Buffer.alloc data.length, buflen := 0 } out
      (by simp [Buffer.alloc]; exact hlen)
    have hbuflen := pushBytes_buflen { buffer := Buffer.alloc data.length, buflen := 0 } out
    simp only [Buffer.slice0, List.take_zero, List.nil_append] at hslice
    simp only [Nat.zero_add] at hbuflen
    simp only [hbuflen, Buffer.slice0] at hslice ⊢
    rw [hslice]
    by_cases hout : out = []
    · simp [hout]
    · have : out.length ≠ 0 := by simpa using hout
      simp [hout, this]

/-! ## The decoder neither reads nor rewrites earlier events -/

theorem nawsResult_prepend (earlier : List Event) (s : TelnetSession) (data : List Nat) :
    nawsResult (prependEmitted earlier s) data = prependEmitted earlier (nawsResult s data) := by
  unfold nawsResult prependEmitted
  split_ifs <;> simp

theorem prepend_clear (s : TelnetSession) : prependEmitted s.emitted (clearEmitted s) = s := by
  simp [prependEmitted, clearEmitted]

theorem stepSession_prepend (earlier : List Event) (s : TelnetSession) (char : Nat) :
    stepSession (prependEmitted earlier s) char =
      match stepSession s char with
      | .ok t => .ok (prependEmitted earlier t)
      | .error e => .error e := by
  have hd : (prependEmitted earlier s).decode = s.decode := rfl
  have hcm : (prependEmitted earlier s).command = s.command := rfl
  have hop : (prependEmitted earlier s).option = s.option := rfl
  have hpa : (prependEmitted earlier s).param = s.param := rfl
  by_cases h0 : s.decode = 0
  · by_cases hc : char = 255
    · subst hc
      rw [stepSession_idle_iac _ (hd.trans h0), stepSession_idle_iac _ h0]
      rfl
    · rw [stepSession_idle_payload _ _ (hd.trans h0) hc, stepSession_idle_payload _ _ h0 hc]
  by_cases h1 : s.decode = 1
  · by_cases hk : char ∈ COMMANDS.map Prod.snd
    · rw [stepSession_command_known _ _ (hd.trans h1) hk, stepSession_command_known _ _ h1 hk]
      rfl
    · rw [stepSession_command_unknown _ _ (hd.trans h1) hk, stepSession_command_unknown _ _ h1 hk]
      rfl
  by_cases h2 : s.decode = 2
  · by_cases hsb : s.command = 250
    · rw [stepSession_option_sb _ _ (hd.trans h2) (hcm.trans hsb), stepSession_option_sb _ _ h2 hsb]
      rfl
    · by_cases hn : char = 31
      · subst hn
        rw [stepSession_option_naws _ (hd.trans h2) (by rw [hcm]; exact hsb),
          stepSession_option_naws _ h2 hsb]
        rfl
      · rw [stepSession_option_other _ _ (hd.trans h2) (by rw [hcm]; exact hsb) hn,
          stepSession_option_other _ _ h2 hsb hn]
        rfl
  by_cases h3 : s.decode = 3
  · by_cases hc : char = 255
    · subst hc
      rw [stepSession_sub_iac _ (hd.trans h3), stepSession_sub_iac _ h3]
      rfl
    · cases hp : s.param with
      | none =>
        rw [stepSession_sub_undefined _ _ (hd.trans h3) hc (hpa.trans hp),
          stepSession_sub_undefined _ _ h3 hc hp]
      | some p =>
        rw [stepSession_sub_store _ _ p (hd.trans h3) hc (hpa.trans hp),
          stepSession_sub_store _ _ p h3 hc hp]
        rfl
  by_cases h4 : s.decode = 4
  · by_cases hse : char = 240
    · subst hse
      by_cases ho : s.option = 31
      · cases hp : s.param with
        | none =>
          rw [stepSession_end_se_undefined _ (hd.trans h4) (hop.trans ho) (hpa.trans hp),
            stepSession_end_se_undefined _ h4 ho hp]
        | some p =>
          rw [stepSession_end_se_naws _ p (hd.trans h4) (hop.trans ho) (hpa.trans hp),
            stepSession_end_se_naws _ p h4 ho hp]
          have := nawsResult_prepend earlier
            { s with calls := s.calls ++ [(Handler.naws, Buffer.slice0 p s.len)] }
            (Buffer.slice0 p s.len)
          simp only [prependEmitted] at this ⊢
          simp only [this]
      · rw [stepSession_end_se_other _ (hd.trans h4) (by rw [hop]; exact ho),
          stepSession_end_se_other _ h4 ho]
        rfl
    · by_cases hc : char = 255
      · subst hc
        rw [stepSession_end_iac _ (hd.trans h4), stepSession_end_iac _ h4]
        rfl
      · cases hp : s.param with
        | none =>
          rw [stepSession_end_undefined _ _ (hd.trans h4) hse hc (hpa.trans hp),
            stepSession_end_undefined _ _ h4 hse hc hp]
        | some p =>
          rw [stepSession_end_store _ _ p (hd.trans h4) hse hc (hpa.trans hp),
            stepSession_end_store _ _ p h4 hse hc hp]
          rfl
  by_cases h5 : s.decode = 5
  · rw [stepSession_ignore2 _ _ (hd.trans h5), stepSession_ignore2 _ _ h5]
    rfl
  by_cases h6 : s.decode = 6
  · rw [stepSession_ignore1 _ _ (hd.trans h6), stepSession_ignore1 _ _ h6]
    rfl
  have h7 : 6 < s.decode := by omega
  rw [stepSession_inert _ _ (by rw [hd]; exact h7), stepSession_inert _ _ h7]


/-- Case analysis on one decoder step: a property of the result holds as soon as
it holds in each branch of the `switch`. -/
theorem stepSession_cases (P : Except JsError TelnetSession → Prop) (s : TelnetSession)
    (char : Nat)
    (idle_iac : s.decode = 0 → char = 255 →
      P (.ok { s with command := 0, option := 0, decode := 1 }))
    (idle_payload : s.decode = 0 → char ≠ 255 → P (.ok s))
    (command_known : s.decode = 1 → char ∈ COMMANDS.map Prod.snd →
      P (.ok { s with command := char, decode := 2 }))
    (command_unknown : s.decode = 1 → char ∉ COMMANDS.map Prod.snd →
      P (.ok { s with decode := 5 }))
    (option_sb : s.decode = 2 → s.command = 250 →
      P (.ok { s with option := char, param := some (Buffer.alloc 128), len := 0, decode := 3 }))
    (option_naws : s.decode = 2 → s.command ≠ 250 → char = 31 →
      P (.ok { s with option := 31, calls := s.calls ++ [(Handler.naws, [s.command, 31])],
                      decode := 0 }))
    (option_other : s.decode = 2 → s.command ≠ 250 → char ≠ 31 →
      P (.ok { s with option := char, decode := 0 }))
    (sub_iac : (s.decode = 3 ∨ s.decode = 4) → char = 255 → P (.ok { s with decode := 4 }))
    (sub_store : ∀ p, (s.decode = 3 ∨ s.decode = 4 ∧ char ≠ 240) → char ≠ 255 →
      s.param = some p →
      P (.ok { s with decode := 3, param := some (Buffer.store p s.len char), len := s.len + 1 }))
    (sub_undefined : (s.decode = 3 ∨ s.decode = 4 ∧ char ≠ 240) → char ≠ 255 →
      s.param = none → P (.error JsError.typeError))
    (end_se_naws : ∀ p, s.decode = 4 → char = 240 → s.option = 31 → s.param = some p →
      P (.ok { nawsResult { s with calls := s.calls ++ [(Handler.naws, Buffer.slice0 p s.len)] }
                 (Buffer.slice0 p s.len) with decode := 0 }))
    (end_se_undefined : s.decode = 4 → char = 240 → s.option = 31 → s.param = none →
      P (.error JsError.typeError))
    (end_se_other : s.decode = 4 → char = 240 → s.option ≠ 31 → P (.ok { s with decode := 0 }))
    (ignore2 : s.decode = 5 → P (.ok { s with decode := 6 }))
    (ignore1 : s.decode = 6 → P (.ok { s with decode := 0 }))
    (inert : 6 < s.decode → P (.ok s)) :
    P (stepSession s char) := by
  by_cases h0 : s.decode = 0
  · by_cases hc : char = 255
    · rw [hc, stepSession_idle_iac _ h0]
      exact idle_iac h0 hc
    · rw [stepSession_idle_payload _ _ h0 hc]
      exact idle_payload h0 hc
  by_cases h1 : s.decode = 1
  · by_cases hk : char ∈ COMMANDS.map Prod.snd
    · rw [stepSession_command_known _ _ h1 hk]
      exact command_known h1 hk
    · rw [stepSession_command_unknown _ _ h1 hk]
      exact command_unknown h1 hk
  by_cases h2 : s.decode = 2
  · by_cases hsb : s.command = 250
    · rw [stepSession_option_sb _ _ h2 hsb]
      exact option_sb h2 hsb
    · by_cases hn : char = 31
      · rw [hn, stepSession_option_naws _ h2 hsb]
        exact option_naws h2 hsb hn
      · rw [stepSession_option_other _ _ h2 hsb hn]
        exact option_other h2 hsb hn
  by_cases h3 : s.decode = 3
  · by_cases hc : char = 255
    · rw [hc, stepSession_sub_iac _ h3]
      exact sub_iac (Or.inl h3) hc
    · cases hp : s.param with
      | none =>
        rw [stepSession_sub_undefined _ _ h3 hc hp]
        exact sub_undefined (Or.inl h3) hc hp
      | some p =>
        rw [stepSession_sub_store _ _ p h3 hc hp]
        have := sub_store p (Or.inl h3) hc hp
        rw [← h3] at this
        exact this
  by_cases h4 : s.decode = 4
  · by_cases hse : char = 240
    · by_cases ho : s.option = 31
      · cases hp : s.param with
        | none =>
          rw [hse, stepSession_end_se_undefined _ h4 ho hp]
          exact end_se_undefined h4 hse ho hp
        | some p =>
          rw [hse, stepSession_end_se_naws _ p h4 ho hp]
          exact end_se_naws p h4 hse ho hp
      · rw [hse, stepSession_end_se_other _ h4 ho]
        exact end_se_other h4 hse ho
    · by_cases hc : char = 255
      · rw [hc, stepSession_end_iac _ h4]
        exact sub_iac (Or.inr h4) hc
      · cases hp : s.param with
        | none =>
          rw [stepSession_end_undefined _ _ h4 hse hc hp]
          exact sub_undefined (Or.inr ⟨h4, hse⟩) hc hp
        | some p =>
          rw [stepSession_end_store _ _ p h4 hse hc hp]
          exact sub_store p (Or.inr ⟨h4, hse⟩) hc hp
  by_cases h5 : s.decode = 5
  · rw [stepSession_ignore2 _ _ h5]
    exact ignore2 h5
  by_cases h6 : s.decode = 6
  · rw [stepSession_ignore1 _ _ h6]
    exact ignore1 h6
  have h7 : 6 < s.decode := by omega
  rw [stepSession_inert _ _ h7]
  exact inert h7


/-! ## Invariants of the decoder -/

theorem payloadOf_append (xs ys : List Event) :
    payloadOf (xs ++ ys) = payloadOf xs ++ payloadOf ys := by
  induction xs with
  | nil => rfl
  | cons e rest ih => cases e <;> simp [payloadOf, ih]

theorem nonData_append (xs ys : List Event) : nonData (xs ++ ys) = nonData xs ++ nonData ys := by
  induction xs with
  | nil => rfl
  | cons e rest ih => cases e <;> simp [nonData, ih]

theorem nawsResult_payloadOf (s : TelnetSession) (data : List Nat) :
    payloadOf (nawsResult s data).emitted = payloadOf s.emitted := by
  unfold nawsResult
  split_ifs
  · rfl
  · simp [payloadOf_append, payloadOf]

theorem nawsResult_decoder (s : TelnetSession) (data : List Nat) :
    (nawsResult s data).decode = s.decode ∧ (nawsResult s data).param = s.param ∧
    (nawsResult s data).command = s.command ∧ (nawsResult s data).option = s.option ∧
    (nawsResult s data).len = s.len ∧ (nawsResult s data).calls = s.calls ∧
    (nawsResult s data).written = s.written ∧ (nawsResult s data).isRaw = s.isRaw ∧
    (nawsResult s data).isTTY = s.isTTY := by
  unfold nawsResult
  split_ifs <;> simp

/-- From a state whose subnegotiation buffer is allocated when it is needed, a
decoder step raises no exception and leads to such a state again. -/
theorem stepSession_allocated (s : TelnetSession) (char : Nat) (h : Allocated s) :
    ∃ t, stepSession s char = .ok t ∧ Allocated t := by
  apply stepSession_cases (fun r => ∃ t, r = .ok t ∧ Allocated t) s char
  · intro _ _
    exact ⟨_, rfl, by simp [Allocated]⟩
  · intro _ _
    exact ⟨_, rfl, h⟩
  · intro _ _
    exact ⟨_, rfl, by simp [Allocated]⟩
  · intro _ _
    exact ⟨_, rfl, by simp [Allocated]⟩
  · intro _ _
    exact ⟨_, rfl, by simp [Allocated]⟩
  · intro _ _ _
    exact ⟨_, rfl, by simp [Allocated]⟩
  · intro _ _ _
    exact ⟨_, rfl, by simp [Allocated]⟩
  · intro hd _
    refine ⟨_, rfl, ?_⟩
    intro _
    exact h (by rcases hd with hd | hd <;> simp [hd])
  · intro p _ _ _
    exact ⟨_, rfl, by simp [Allocated]⟩
  · intro hd _ hp
    exact absurd hp (h (by rcases hd with hd | hd <;> simp [hd]))
  · intro p _ _ _ _
    exact ⟨_, rfl, by simp [Allocated]⟩
  · intro hd _ _ hp
    exact absurd hp (h (by simp [hd]))
  · intro _ _ _
    exact ⟨_, rfl, by simp [Allocated]⟩
  · intro _
    exact ⟨_, rfl, by simp [Allocated]⟩
  · intro _
    exact ⟨_, rfl, by simp [Allocated]⟩
  · intro _
    exact ⟨_, rfl, h⟩

theorem stepSession_payloadOf (s t : TelnetSession) (char : Nat)
    (h : stepSession s char = .ok t) : payloadOf t.emitted = payloadOf s.emitted := by
  revert h
  apply stepSession_cases (fun r => r = .ok t → payloadOf t.emitted = payloadOf s.emitted) s char
  all_goals
    intros
    rename_i heq
    first
      | (cases heq; done)
      | (injection heq with heq; subst heq; first | rfl | exact nawsResult_payloadOf _ _)

theorem runSession_allocated (s : TelnetSession) (data : List Nat) (h : Allocated s) :
    ∃ t out, runSession s data = .ok (t, out) ∧ Allocated t := by
  induction data generalizing s with
  | nil => exact ⟨s, [], rfl, h⟩
  | cons x xs ih =>
    obtain ⟨s1, hstep, h1⟩ := stepSession_allocated s x h
    obtain ⟨t, out, hrun, ht⟩ := ih s1 h1
    exact ⟨t, payloadByte s x ++ out, by rw [runSession_cons_ok _ _ _ _ hstep, hrun], ht⟩

theorem runSession_payloadOf (s t : TelnetSession) (data out : List Nat)
    (h : runSession s data = .ok (t, out)) : payloadOf t.emitted = payloadOf s.emitted := by
  induction data generalizing s out with
  | nil =>
    simp only [runSession_nil, Except.ok.injEq, Prod.mk.injEq] at h
    rw [h.1]
  | cons x xs ih =>
    cases hstep : stepSession s x with
    | error e => simp [runSession, hstep] at h
    | ok s1 =>
      cases hrun : runSession s1 xs with
      | error e => simp [runSession, hstep, hrun] at h
      | ok r =>
        obtain ⟨t1, o1⟩ := r
        simp only [runSession, hstep, hrun, Except.ok.injEq, Prod.mk.injEq] at h
        rw [h.1] at hrun
        rw [ih s1 o1 hrun, stepSession_payloadOf s s1 x hstep]

theorem runSession_prepend (earlier : List Event) (s : TelnetSession) (data : List Nat) :
    runSession (prependEmitted earlier s) data =
      match runSession s data with
      | .ok (t, out) => .ok (prependEmitted earlier t, out)
      | .error e => .error e := by
  induction data generalizing s with
  | nil => rfl
  | cons x xs ih =>
    have hstep := stepSession_prepend earlier s x
    cases hs : stepSession s x with
    | error e =>
      rw [hs] at hstep
      rw [runSession_cons_error _ _ _ _ hstep, runSession_cons_error _ _ _ _ hs]
    | ok s1 =>
      rw [hs] at hstep
      rw [runSession_cons_ok _ _ _ _ hstep, runSession_cons_ok _ _ _ _ hs, ih s1]
      cases hrun : runSession s1 xs with
      | error e => rfl
      | ok r =>
        obtain ⟨t, out⟩ := r
        rfl


/-! ## Feeding a list of chunks -/

theorem feed_cons_ok (s s1 : TelnetSession) (data : List Nat) (rest : List (List Nat))
    (h : onData s data = .ok s1) : feed s (data :: rest) = feed s1 rest := by
  simp [feed, h]

/-- Feeding chunks agrees with one run of the decoder over their concatenation:
same session up to the event trace, same concatenated payload, same other events. -/
theorem feed_of_runSession (chunks : List (List Nat)) (s t : TelnetSession) (out : List Nat)
    (h : runSession s chunks.flatten = .ok (t, out)) :
    ∃ u, feed s chunks = .ok u ∧ clearEmitted u = clearEmitted t ∧
      payloadOf u.emitted = payloadOf s.emitted ++ out ∧
      nonData u.emitted = nonData t.emitted := by
  induction chunks generalizing s t out with
  | nil =>
    simp only [List.flatten_nil, runSession_nil, Except.ok.injEq, Prod.mk.injEq] at h
    obtain ⟨h1, h2⟩ := h
    subst h1 h2
    exact ⟨s, rfl, rfl, by simp, rfl⟩
  | cons d rest ih =>
    rw [List.flatten_cons, runSession_append] at h
    cases hd : runSession s d with
    | error e => simp [hd] at h
    | ok r1 =>
      obtain ⟨t1, o1⟩ := r1
      rw [hd] at h
      simp only at h
      -- the run over the remaining chunks, started without earlier events
      have hpre := runSession_prepend t1.emitted (clearEmitted t1) rest.flatten
      rw [prepend_clear] at hpre
      cases hR : runSession (clearEmitted t1) rest.flatten with
      | error e =>
        rw [hR] at hpre
        simp [hpre] at h
      | ok r2 =>
        obtain ⟨r, o2⟩ := r2
        rw [hR] at hpre
        simp only at hpre
        rw [hpre] at h
        simp only [Except.ok.injEq, Prod.mk.injEq] at h
        obtain ⟨ht, hout⟩ := h
        subst ht hout
        -- the session the callback leaves after the first chunk
        have hs1 : onData s d = .ok (prependEmitted
            (t1.emitted ++ (if o1 ≠ [] then [Event.data o1] else [])) (clearEmitted t1)) := by
          rw [onData_eq, hd]
          by_cases ho : o1 = [] <;> simp [ho, prependEmitted, clearEmitted]
        have hrun1 := runSession_prepend
          (t1.emitted ++ (if o1 ≠ [] then [Event.data o1] else [])) (clearEmitted t1) rest.flatten
        rw [hR] at hrun1
        obtain ⟨u, hu, hclear, hpay, hnon⟩ := ih _ _ _ hrun1
        refine ⟨u, ?_, ?_, ?_, ?_⟩
        · rw [feed_cons_ok _ _ _ _ hs1, hu]
        · rw [hclear]
          rfl
        · rw [hpay]
          have hp1 := runSession_payloadOf s t1 d o1 hd
          by_cases ho : o1 = [] <;>
            simp [ho, prependEmitted, clearEmitted, payloadOf_append, payloadOf, hp1]
        · rw [hnon]
          by_cases ho : o1 = [] <;>
            simp [ho, prependEmitted, clearEmitted, nonData_append, nonData]


/-! ## Payload in the idle state -/

theorem onData_idle_payload (s : TelnetSession) (data : List Nat) (h : s.decode = 0)
    (hp : ∀ b ∈ data, b ≠ 255) :
    onData s data =
      .ok (if data ≠ [] then { s with emitted := s.emitted ++ [Event.data data] } else s) := by
  rw [onData_eq, runSession_idle_payload s data h hp]

theorem feed_idle_payload (chunks : List (List Nat)) (s : TelnetSession) (h : s.decode = 0)
    (hp : ∀ b ∈ chunks.flatten, b ≠ 255) :
    feed s chunks =
      .ok { s with emitted :=
              s.emitted ++ (chunks.filter (fun d => !d.isEmpty)).map Event.data } := by
  induction chunks generalizing s with
  | nil => simp [feed]
  | cons d rest ih =>
    have hd : ∀ b ∈ d, b ≠ 255 := fun b hb => hp b (by simp [hb])
    have hrest : ∀ b ∈ rest.flatten, b ≠ 255 := fun b hb => hp b (by
      rw [List.flatten_cons, List.mem_append]
      exact Or.inr hb)
    rw [feed_cons_ok _ _ _ _ (onData_idle_payload s d h hd)]
    cases d with
    | nil =>
      simp only [ne_eq, not_true_eq_false, if_false]
      rw [ih s h hrest]
      simp
    | cons x xs =>
      rw [if_pos (by simp),
        ih { s with emitted := s.emitted ++ [Event.data (x :: xs)] } h hrest]
      simp

theorem payloadOf_map_data (chunks : List (List Nat)) :
    payloadOf ((chunks.filter (fun d => !d.isEmpty)).map Event.data) = chunks.flatten := by
  induction chunks with
  | nil => rfl
  | cons d rest ih =>
    cases d with
    | nil => simpa using ih
    | cons x xs => simp [payloadOf, ih]

/-- C1: bytes other than 0xFF fed in any chunking to a session whose decoder is
idle (as it is after construction) are emitted unchanged and in order, one
`'data'` event per non-empty chunk, and nothing else of the session changes: no
handler is invoked and the decoder stays idle. -/
theorem C1_payload_passes_through (s : TelnetSession) (chunks : List (List Nat))
    (hidle : s.decode = DECODE_IDLE) (hno : ∀ b ∈ chunks.flatten, b ≠ 0xFF) :
    ∃ u, feed s chunks = .ok u ∧
      u.emitted = s.emitted ++ (chunks.filter (fun d => !d.isEmpty)).map Event.data ∧
      payloadOf u.emitted = payloadOf s.emitted ++ chunks.flatten ∧
      u.calls = s.calls ∧ u.decode = DECODE_IDLE := by
  refine ⟨_, feed_idle_payload chunks s hidle hno, rfl, ?_, rfl, hidle⟩
  simp [payloadOf_append, payloadOf_map_data]

/-- C1 at the constructed session, for the chunks `[104, 105]`, `[]`, `[10, 0]`. -/
theorem C1_payload_passes_through_witness :
    construct = .ok freshSession ∧ freshSession.decode = DECODE_IDLE ∧
    (∀ b ∈ [[104, 105], [], [10, 0]].flatten, b ≠ 0xFF) ∧
    ∃ u, feed freshSession [[104, 105], [], [10, 0]] = .ok u ∧
      u.emitted = [Event.data [104, 105], Event.data [10, 0]] ∧
      payloadOf u.emitted = [104, 105, 10, 0] ∧ u.calls = [] ∧ u.decode = DECODE_IDLE :=
  ⟨construct_eq, rfl, by decide,
    C1_payload_passes_through freshSession [[104, 105], [], [10, 0]] rfl (by decide)⟩


/-! ## Chunking -/

/-- C2: decoding does not depend on how the bytes are split into chunks.  From
any session whose subnegotiation buffer exists when the decoder is inside a
subnegotiation (the constructed session is one), two chunkings of the same byte
sequence are both decoded without exception and leave the same decoder
variables, the same geometry, the same handler invocations in the same order,
the same concatenated payload and the same other events. -/
theorem C2_chunking_independent (s : TelnetSession) (cs1 cs2 : List (List Nat))
    (halloc : Allocated s) (hsame : cs1.flatten = cs2.flatten) :
    ∃ u1 u2, feed s cs1 = .ok u1 ∧ feed s cs2 = .ok u2 ∧
      u1.decode = u2.decode ∧ u1.command = u2.command ∧ u1.option = u2.option ∧
      u1.param = u2.param ∧ u1.len = u2.len ∧ u1.calls = u2.calls ∧
      payloadOf u1.emitted = payloadOf u2.emitted ∧ nonData u1.emitted = nonData u2.emitted ∧
      u1.columns = u2.columns ∧ u1.rows = u2.rows := by
  obtain ⟨t, out, hrun, _⟩ := runSession_allocated s cs1.flatten halloc
  obtain ⟨u1, hu1, hc1, hp1, hn1⟩ := feed_of_runSession cs1 s t out hrun
  rw [hsame] at hrun
  obtain ⟨u2, hu2, hc2, hp2, hn2⟩ := feed_of_runSession cs2 s t out hrun
  have hc : clearEmitted u1 = clearEmitted u2 := hc1.trans hc2.symm
  refine ⟨u1, u2, hu1, hu2, ?_, ?_, ?_, ?_, ?_, ?_, ?_, ?_, ?_, ?_⟩
  · exact congrArg (fun x => (x.decode)) hc
  · exact congrArg (fun x => (x.command)) hc
  · exact congrArg (fun x => (x.option)) hc
  · exact congrArg (fun x => (x.param)) hc
  · exact congrArg (fun x => (x.len)) hc
  · exact congrArg (fun x => (x.calls)) hc
  · rw [hp1, hp2]
  · rw [hn1, hn2]
  · exact congrArg (fun x => (x.columns)) hc
  · exact congrArg (fun x => (x.rows)) hc

/-- C2 at the constructed session: IAC alone and then WILL ECHO against the single chunk IAC WILL ECHO. -/
theorem C2_chunking_independent_witness :
    Allocated freshSession ∧ [[0xFF], [0xFB, 0x01]].flatten = [[0xFF, 0xFB, 0x01]].flatten ∧
    ∃ u1 u2, feed freshSession [[0xFF], [0xFB, 0x01]] = .ok u1 ∧
      feed freshSession [[0xFF, 0xFB, 0x01]] = .ok u2 ∧
      u1.decode = u2.decode ∧ u1.command = u2.command ∧ u1.option = u2.option ∧
      u1.param = u2.param ∧ u1.len = u2.len ∧ u1.calls = u2.calls ∧
      payloadOf u1.emitted = payloadOf u2.emitted ∧ nonData u1.emitted = nonData u2.emitted ∧
      u1.columns = u2.columns ∧ u1.rows = u2.rows :=
  ⟨by decide, rfl,
    C2_chunking_independent freshSession [[0xFF], [0xFB, 0x01]] [[0xFF, 0xFB, 0x01]]
      (by decide) rfl⟩


/-! ## Command sequences from the idle state -/

theorem payloadByte_iac (s : TelnetSession) : payloadByte s 255 = [] := by
  simp [payloadByte, IAC_eq]

theorem payloadByte_busy (s : TelnetSession) (char : Nat) (h : s.decode ≠ 0) :
    payloadByte s char = [] := by
  simp [payloadByte, h]

/-- A recognized command other than SB with its option byte: `IAC c o`. -/
theorem runSession_negotiation (s : TelnetSession) (c o : Nat) (hidle : s.decode = 0)
    (hk : c ∈ COMMANDS.map Prod.snd) (hsb : c ≠ 250) :
    runSession s [255, c, o] =
      .ok ({ s with command := c, option := o, decode := 0,
                    calls := s.calls ++ (if o = 31 then [(Handler.naws, [c, o])] else []) },
           []) := by
  rw [runSession_cons_ok _ _ _ _ (stepSession_idle_iac s hidle),
    runSession_cons_ok _ _ _ _ (stepSession_command_known _ c rfl hk)]
  by_cases ho : o = 31
  · subst ho
    rw [runSession_cons_ok _ _ _ _ (stepSession_option_naws _ rfl hsb)]
    simp [runSession_nil, payloadByte_iac, payloadByte_busy]
  · rw [runSession_cons_ok _ _ _ _ (stepSession_option_other _ o rfl hsb ho)]
    simp [runSession_nil, payloadByte_iac, payloadByte_busy, ho]

/-- The start of a subnegotiation: `IAC SB o`. -/
theorem runSession_sb (s : TelnetSession) (o : Nat) (hidle : s.decode = 0) :
    runSession s [255, 250, o] =
      .ok ({ s with command := 250, option := o, param := some (Buffer.alloc 128), len := 0,
                    decode := 3 }, []) := by
  rw [runSession_cons_ok _ _ _ _ (stepSession_idle_iac s hidle),
    runSession_cons_ok _ _ _ _ (stepSession_command_known _ 250 rfl (by decide)),
    runSession_cons_ok _ _ _ _ (stepSession_option_sb _ o rfl rfl)]
  simp [runSession_nil, payloadByte_iac, payloadByte_busy]

/-- An unrecognized command and the two bytes after it: `IAC x y z`. -/
theorem runSession_unknown (s : TelnetSession) (x y z : Nat) (hidle : s.decode = 0)
    (hx : x ∉ COMMANDS.map Prod.snd) :
    runSession s [255, x, y, z] = .ok ({ s with command := 0, option := 0, decode := 0 }, []) := by
  rw [runSession_cons_ok _ _ _ _ (stepSession_idle_iac s hidle),
    runSession_cons_ok _ _ _ _ (stepSession_command_unknown _ x rfl hx),
    runSession_cons_ok _ _ _ _ (stepSession_ignore2 _ y rfl),
    runSession_cons_ok _ _ _ _ (stepSession_ignore1 _ z rfl)]
  simp [runSession_nil, payloadByte_iac, payloadByte_busy]

/-- Parameter bytes other than 0xFF inside a subnegotiation are stored one after
the other from index `len`. -/
theorem runSession_sub_payload (p : List Nat) (s : TelnetSession) (buf : List Nat)
    (hd : s.decode = 3) (hbuf : s.param = some buf) (hp : ∀ b ∈ p, b ≠ 255) :
    runSession s p =
      .ok ({ s with param := some (pushBytes { buffer := buf, buflen := s.len } p).buffer,
                    len := (pushBytes { buffer := buf, buflen := s.len } p).buflen }, []) := by
  induction p generalizing s buf with
  | nil =>
    rw [runSession_nil]
    simp [pushBytes, ← hbuf]
  | cons x xs ih =>
    have hx : x ≠ 255 := hp x (List.mem_cons_self _ _)
    have hxs : ∀ b ∈ xs, b ≠ 255 := fun b hb => hp b (List.mem_cons_of_mem _ hb)
    rw [runSession_cons_ok _ _ _ _ (stepSession_sub_store s x buf hd hx hbuf),
      ih { s with param := some (Buffer.store buf s.len x), len := s.len + 1 }
        (Buffer.store buf s.len x) hd rfl hxs]
    simp [pushBytes, payloadByte_busy, hd]

/-- The end of a subnegotiation: `IAC SE`. -/
theorem runSession_se (s : TelnetSession) (buf : List Nat) (hd : s.decode = 3)
    (hbuf : s.param = some buf) :
    runSession s [255, 240] =
      .ok (if s.option = 31 then
             { nawsResult { s with decode := 4,
                                   calls := s.calls ++ [(Handler.naws, Buffer.slice0 buf s.len)] }
                 (Buffer.slice0 buf s.len) with decode := 0 }
           else { s with decode := 0 }, []) := by
  rw [runSession_cons_ok _ _ _ _ (stepSession_sub_iac s hd)]
  by_cases ho : s.option = 31
  · rw [runSession_cons_ok _ _ _ _
      (stepSession_end_se_naws { s with decode := 4 } buf rfl ho hbuf)]
    simp [runSession_nil, payloadByte_iac, payloadByte_busy, ho]
  · rw [runSession_cons_ok _ _ _ _ (stepSession_end_se_other { s with decode := 4 } rfl ho)]
    simp [runSession_nil, payloadByte_iac, payloadByte_busy, ho]


/-- Whatever the number of bytes stored, the slice handed to a handler is what
fits into the buffer: the bytes past its length are lost. -/
theorem pushBytes_slice_take (out : List Nat) (l : RxLocals) :
    Buffer.slice0 (pushBytes l out).buffer (pushBytes l out).buflen
      = (Buffer.slice0 l.buffer l.buflen ++ out).take l.buffer.length := by
  induction out generalizing l with
  | nil =>
    simp only [pushBytes, Buffer.slice0, List.append_nil, List.take_take]
    by_cases h : l.buflen ≤ l.buffer.length
    · rw [Nat.min_eq_right h]
    · rw [Nat.min_eq_left (by omega), List.take_of_length_le (by omega),
        List.take_of_length_le (Nat.le_refl _)]
  | cons x xs ih =>
    simp only [pushBytes]
    rw [ih]
    simp only [Buffer.slice0, Buffer.store, List.length_set]
    by_cases hlt : l.buflen < l.buffer.length
    · have hset : List.take l.buflen (l.buffer.set l.buflen x) = List.take l.buflen l.buffer := by
        rw [List.set_take, List.set_eq_of_length_le (by simp)]
      rw [List.take_succ, hset]
      simp [hlt]
    · have hge : l.buffer.length ≤ l.buflen := by omega
      rw [List.set_eq_of_length_le hge, List.take_of_length_le (by omega : l.buffer.length ≤ l.buflen + 1),
        List.take_of_length_le hge, List.take_append_of_le_length (Nat.le_refl _),
        List.take_append_of_le_length (Nat.le_refl _)]

/-- A whole subnegotiation `IAC SB o p IAC SE` from the idle state: the handler
of option NAWS is invoked with the first 128 bytes of `p`. -/
theorem runSession_subnegotiation (s : TelnetSession) (o : Nat) (p : List Nat)
    (hidle : s.decode = 0) (hp : ∀ b ∈ p, b ≠ 255) :
    ∃ buf, runSession s ([255, 250, o] ++ p ++ [255, 240]) =
      .ok (if o = 31 then
             { nawsResult { s with command := 250, option := 31, param := some buf,
                                   len := p.length, decode := 4,
                                   calls := s.calls ++ [(Handler.naws, p.take 128)] }
                 (p.take 128) with decode := 0 }
           else { s with command := 250, option := o, param := some buf, len := p.length,
                         decode := 0 }, []) := by
  refine ⟨(pushBytes { buffer := Buffer.alloc 128, buflen := 0 } p).buffer, ?_⟩
  have hslice := pushBytes_slice_take p { buffer := Buffer.alloc 128, buflen := 0 }
  have hlen := pushBytes_buflen { buffer := Buffer.alloc 128, buflen := 0 } p
  have halloc : (Buffer.alloc 128).length = 128 := by simp [Buffer.alloc]
  simp only [Buffer.slice0, List.take_zero, List.nil_append, halloc, Nat.zero_add] at hslice hlen
  rw [hlen] at hslice
  rw [List.append_assoc, runSession_append, runSession_sb s o hidle]
  simp only
  rw [runSession_append, runSession_sub_payload p _ (Buffer.alloc 128) rfl rfl hp]
  simp only
  rw [runSession_se _ _ rfl rfl]
  simp only [Buffer.slice0, hslice, hlen]
  by_cases ho : o = 31
  · simp [ho]
  · simp [ho]

theorem feed_single (s : TelnetSession) (data : List Nat) : feed s [data] = onData s data := by
  cases h : onData s data <;> simp [feed, h]


theorem onData_of_runSession_silent (s t : TelnetSession) (data : List Nat)
    (h : runSession s data = .ok (t, [])) : onData s data = .ok t := by
  rw [onData_eq, h]
  simp

/-! ## Negotiation commands and NAWS -/

/-- C3, as stated, fails: `IAC WILL ECHO` fed to the constructed session invokes
no handler at all, because no handler is registered for option ECHO. -/
theorem C3_counterexample_echo_not_dispatched :
    ∃ u, feed freshSession [[0xFF, 0xFB, 0x01]] = .ok u ∧ u.calls = [] ∧ ¬ u.calls.length = 1 := by
  have hfeed := onData_of_runSession_silent _ _ _
    (runSession_negotiation freshSession 0xFB 0x01 rfl (by decide) (by decide))
  rw [← feed_single] at hfeed
  exact ⟨_, hfeed, rfl, by decide⟩

/-- C3, amended: for `IAC c o` with `c` one of DO, DONT, WILL, WONT, from the idle
state the decoder looks the option up once and returns to idle with `c` and `o`
recorded, emitting nothing; a handler is invoked, once and with `[c, o]`, only
when `o` is NAWS (0x1F), for every other option byte no handler is invoked. -/
theorem C3_negotiation_dispatch (s : TelnetSession) (c o : Nat) (hidle : s.decode = DECODE_IDLE)
    (hc : c = 0xFD ∨ c = 0xFE ∨ c = 0xFB ∨ c = 0xFC) :
    ∃ u, feed s [[0xFF, c, o]] = .ok u ∧ u.decode = DECODE_IDLE ∧ u.emitted = s.emitted ∧
      u.calls = s.calls ++ (if o = 0x1F then [(Handler.naws, [c, o])] else []) ∧
      u.command = c ∧ u.option = o ∧ u.columns = s.columns ∧ u.rows = s.rows := by
  have hk : c ∈ COMMANDS.map Prod.snd := by
    rcases hc with h | h | h | h <;> subst h <;> decide
  have hsb : c ≠ 250 := by
    rcases hc with h | h | h | h <;> subst h <;> decide
  have hfeed := onData_of_runSession_silent _ _ _ (runSession_negotiation s c o hidle hk hsb)
  rw [← feed_single] at hfeed
  exact ⟨_, hfeed, rfl, rfl, rfl, rfl, rfl, rfl, rfl⟩

/-- C3 (amended) at the constructed session for IAC WILL ECHO. -/
theorem C3_negotiation_dispatch_witness :
    freshSession.decode = DECODE_IDLE ∧ ((0xFB : Nat) = 0xFD ∨ (0xFB : Nat) = 0xFE ∨
      (0xFB : Nat) = 0xFB ∨ (0xFB : Nat) = 0xFC) ∧
    ∃ u, feed freshSession [[0xFF, 0xFB, 0x01]] = .ok u ∧ u.decode = DECODE_IDLE ∧
      u.emitted = freshSession.emitted ∧
      u.calls = freshSession.calls ++ (if 0x01 = 0x1F then [(Handler.naws, [0xFB, 0x01])] else []) ∧
      u.command = 0xFB ∧ u.option = 0x01 ∧ u.columns = freshSession.columns ∧
      u.rows = freshSession.rows :=
  ⟨rfl, by decide, C3_negotiation_dispatch freshSession 0xFB 0x01 rfl (by decide)⟩

/-- C4: `IAC SB NAWS a b c d IAC SE` with `a b c d` other than 0xFF, decoded from
the idle state, invokes the NAWS handler once with `[a, b, c, d]`, sets
`columns = 256 * a + b` and `rows = 256 * c + d`, emits one `'resize'` and no
payload, and returns to idle. -/
theorem C4_naws_sets_geometry (s : TelnetSession) (a b c d : Nat)
    (hidle : s.decode = DECODE_IDLE) (ha : a ≠ 0xFF) (hb : b ≠ 0xFF) (hc : c ≠ 0xFF)
    (hd : d ≠ 0xFF) :
    ∃ u, feed s [[0xFF, 0xFA, 0x1F, a, b, c, d, 0xFF, 0xF0]] = .ok u ∧
      u.columns = 256 * a + b ∧ u.rows = 256 * c + d ∧
      u.emitted = s.emitted ++ [Event.resize] ∧ payloadOf u.emitted = payloadOf s.emitted ∧
      u.calls = s.calls ++ [(Handler.naws, [a, b, c, d])] ∧ u.decode = DECODE_IDLE := by
  have hp : ∀ x ∈ [a, b, c, d], x ≠ 255 := by
    intro x hx
    simp only [List.mem_cons, List.mem_singleton, List.not_mem_nil, or_false] at hx
    rcases hx with h | h | h | h <;> subst h <;> assumption
  obtain ⟨buf, hrun⟩ := runSession_subnegotiation s 0x1F [a, b, c, d] hidle hp
  have hfeed := onData_of_runSession_silent _ _ _ hrun
  rw [← feed_single] at hfeed
  refine ⟨_, hfeed, ?_, ?_, ?_, ?_, ?_, ?_⟩ <;>
    simp [nawsResult, payloadOf_append, payloadOf, Nat.mul_comm]

/-- C4 at the constructed session for the parameter bytes 00 50 00 18: 80 columns, 24 rows, one resize event. -/
theorem C4_naws_sets_geometry_witness :
    freshSession.decode = DECODE_IDLE ∧ (0x00 : Nat) ≠ 0xFF ∧ (0x50 : Nat) ≠ 0xFF ∧
    (0x00 : Nat) ≠ 0xFF ∧ (0x18 : Nat) ≠ 0xFF ∧
    ∃ u, feed freshSession [[0xFF, 0xFA, 0x1F, 0x00, 0x50, 0x00, 0x18, 0xFF, 0xF0]] = .ok u ∧
      u.columns = 80 ∧ u.rows = 24 ∧ u.emitted = [Event.resize] ∧ resizeCount u.emitted = 1 ∧
      payloadOf u.emitted = [] ∧ u.decode = DECODE_IDLE := by
  refine ⟨rfl, by decide, by decide, by decide, by decide, ?_⟩
  obtain ⟨u, hu, hcol, hrow, hem, hpay, _, hdec⟩ :=
    C4_naws_sets_geometry freshSession 0x00 0x50 0x00 0x18 rfl (by decide) (by decide)
      (by decide) (by decide)
  refine ⟨u, hu, hcol, hrow, hem, ?_, hpay, hdec⟩
  rw [hem]
  rfl


/-- An unrecognized command followed by one byte: `IAC x y` leaves one more byte to skip. -/
theorem runSession_unknown_two (s : TelnetSession) (x y : Nat) (hidle : s.decode = 0)
    (hx : x ∉ COMMANDS.map Prod.snd) :
    runSession s [255, x, y] = .ok ({ s with command := 0, option := 0, decode := 6 }, []) := by
  rw [runSession_cons_ok _ _ _ _ (stepSession_idle_iac s hidle),
    runSession_cons_ok _ _ _ _ (stepSession_command_unknown _ x rfl hx),
    runSession_cons_ok _ _ _ _ (stepSession_ignore2 _ y rfl)]
  simp [runSession_nil, payloadByte_iac, payloadByte_busy]

/-- C5: the NAWS handler called with fewer than 4 bytes returns without touching
the session.  Hence, from the idle state, neither a subnegotiation
`IAC SB NAWS p IAC SE` with fewer than 4 parameter bytes nor `IAC c NAWS` with
`c` other than SB changes `columns` or `rows`, emits an event or writes to the
socket. -/
theorem C5_short_naws_is_noop (s : TelnetSession) :
    (∀ data : List Nat, data.length < 4 → naws s data = .ok s) ∧
    (s.decode = DECODE_IDLE →
      (∀ p : List Nat, p.length < 4 → (∀ b ∈ p, b ≠ 0xFF) →
        ∃ u, feed s [[0xFF, 0xFA, 0x1F] ++ p ++ [0xFF, 0xF0]] = .ok u ∧
          u.calls = s.calls ++ [(Handler.naws, p)] ∧ u.columns = s.columns ∧ u.rows = s.rows ∧
          u.emitted = s.emitted ∧ u.written = s.written) ∧
      (∀ c : Nat, c ≠ 0xFA →
        ∃ u, feed s [[0xFF, c, 0x1F]] = .ok u ∧
          (c ∈ COMMANDS.map Prod.snd → u.calls = s.calls ++ [(Handler.naws, [c, 0x1F])]) ∧
          u.columns = s.columns ∧ u.rows = s.rows ∧ u.emitted = s.emitted ∧
          u.written = s.written)) := by
  refine ⟨fun data hlen => ?_, fun hidle => ⟨fun p hlen hp => ?_, fun c hc => ?_⟩⟩
  · rw [naws_eq, nawsResult, if_pos hlen]
  · obtain ⟨buf, hrun⟩ := runSession_subnegotiation s 0x1F p hidle hp
    have hfeed := onData_of_runSession_silent _ _ _ hrun
    rw [← feed_single] at hfeed
    have htake : p.take 128 = p := List.take_of_length_le (by omega)
    refine ⟨_, hfeed, ?_, ?_, ?_, ?_, ?_⟩ <;> simp [nawsResult, htake, hlen]
  · by_cases hk : c ∈ COMMANDS.map Prod.snd
    · have hfeed := onData_of_runSession_silent _ _ _ (runSession_negotiation s c 0x1F hidle hk hc)
      rw [← feed_single] at hfeed
      exact ⟨_, hfeed, fun _ => rfl, rfl, rfl, rfl, rfl⟩
    · have hfeed := onData_of_runSession_silent _ _ _ (runSession_unknown_two s c 0x1F hidle hk)
      rw [← feed_single] at hfeed
      exact ⟨_, hfeed, fun h => absurd h hk, rfl, rfl, rfl, rfl⟩

/-- C5 at the constructed session: a two-byte NAWS subnegotiation and IAC DO NAWS. -/
theorem C5_short_naws_is_noop_witness :
    ([0x00, 0x50] : List Nat).length < 4 ∧ naws freshSession [0x00, 0x50] = .ok freshSession ∧
    freshSession.decode = DECODE_IDLE ∧ (∀ b ∈ ([0x00, 0x50] : List Nat), b ≠ 0xFF) ∧
    (∃ u, feed freshSession [[0xFF, 0xFA, 0x1F] ++ [0x00, 0x50] ++ [0xFF, 0xF0]] = .ok u ∧
      u.calls = freshSession.calls ++ [(Handler.naws, [0x00, 0x50])] ∧
      u.columns = freshSession.columns ∧ u.rows = freshSession.rows ∧
      u.emitted = freshSession.emitted ∧ u.written = freshSession.written) ∧
    (0xFD : Nat) ≠ 0xFA ∧
    (∃ u, feed freshSession [[0xFF, 0xFD, 0x1F]] = .ok u ∧
      ((0xFD : Nat) ∈ COMMANDS.map Prod.snd →
        u.calls = freshSession.calls ++ [(Handler.naws, [0xFD, 0x1F])]) ∧
      u.columns = freshSession.columns ∧ u.rows = freshSession.rows ∧
      u.emitted = freshSession.emitted ∧ u.written = freshSession.written) :=
  ⟨by decide, (C5_short_naws_is_noop freshSession).1 [0x00, 0x50] (by decide), rfl, by decide,
    ((C5_short_naws_is_noop freshSession).2 rfl).1 [0x00, 0x50] (by decide) (by decide),
    by decide, ((C5_short_naws_is_noop freshSession).2 rfl).2 0xFD (by decide)⟩

/-! ## Handshake and raw mode -/

theorem s2c_do_suppress_go_ahead (s : TelnetSession) :
    s2c "do" "suppress_go_ahead" s = .ok (send s (Chunk.buffer [0xFF, 0xFD, 0x03])) := rfl

theorem s2c_will_suppress_go_ahead (s : TelnetSession) :
    s2c "will" "suppress_go_ahead" s = .ok (send s (Chunk.buffer [0xFF, 0xFB, 0x03])) := rfl

theorem s2c_will_echo (s : TelnetSession) :
    s2c "will" "echo" s = .ok (send s (Chunk.buffer [0xFF, 0xFB, 0x01])) := rfl

theorem s2c_dont_suppress_go_ahead (s : TelnetSession) :
    s2c "dont" "suppress_go_ahead" s = .ok (send s (Chunk.buffer [0xFF, 0xFE, 0x03])) := rfl

theorem s2c_wont_suppress_go_ahead (s : TelnetSession) :
    s2c "wont" "suppress_go_ahead" s = .ok (send s (Chunk.buffer [0xFF, 0xFC, 0x03])) := rfl

theorem s2c_wont_echo (s : TelnetSession) :
    s2c "wont" "echo" s = .ok (send s (Chunk.buffer [0xFF, 0xFC, 0x01])) := rfl

/-- C6, as stated, fails: the first command the constructor writes is
DO SUPPRESS_GO_AHEAD, not DO TRANSMIT_BINARY, and the sequence of writes is not
the sequence C6 lists. -/
theorem C6_counterexample_handshake_order :
    ∃ s, construct = .ok s ∧
      s.written.head? = some (Chunk.buffer [0xFF, 0xFD, 0x03]) ∧
      s.written ≠ [Chunk.buffer [0xFF, 0xFD, 0x00], Chunk.buffer [0xFF, 0xFD, 0x18],
                   Chunk.buffer [0xFF, 0xFD, 0x1F], Chunk.buffer [0xFF, 0xFD, 0x27],
                   Chunk.buffer [0xFF, 0xFD, 0x03], Chunk.buffer [0xFF, 0xFB, 0x03],
                   Chunk.buffer [0xFF, 0xFB, 0x01]] :=
  ⟨freshSession, construct_eq, rfl, by decide⟩

/-- C6, amended: the constructor writes exactly seven 3-byte commands, the
raw-mode triple first: DO SUPPRESS_GO_AHEAD, WILL SUPPRESS_GO_AHEAD, WILL ECHO,
DO TRANSMIT_BINARY, DO TERMINAL_TYPE, DO NAWS, DO NEW_ENVIRON; nothing is written
before them, and the session starts with the default geometry, raw mode on and
an idle decoder. -/
theorem C6_handshake_writes :
    ∃ s, construct = .ok s ∧
      s.written = [Chunk.buffer [0xFF, 0xFD, 0x03], Chunk.buffer [0xFF, 0xFB, 0x03],
                   Chunk.buffer [0xFF, 0xFB, 0x01], Chunk.buffer [0xFF, 0xFD, 0x00],
                   Chunk.buffer [0xFF, 0xFD, 0x18], Chunk.buffer [0xFF, 0xFD, 0x1F],
                   Chunk.buffer [0xFF, 0xFD, 0x27]] ∧
      s.written.length = 7 ∧ s.emitted = [] ∧ s.decode = DECODE_IDLE ∧ s.isRaw = true :=
  ⟨freshSession, construct_eq, rfl, rfl, rfl, rfl, rfl⟩

/-- C7: `setRawMode(false)` writes DONT SUPPRESS_GO_AHEAD, WONT SUPPRESS_GO_AHEAD,
WONT ECHO in this order and sets `isRaw` to false; `setRawMode(true)` writes
DO SUPPRESS_GO_AHEAD, WILL SUPPRESS_GO_AHEAD, WILL ECHO and sets `isRaw` to true;
every other field of the session, `columns` and `rows` included, is unchanged. -/
theorem C7_setRawMode_writes (s : TelnetSession) :
    setRawMode s false =
      .ok { s with isRaw := false,
                   written := s.written ++ [Chunk.buffer [0xFF, 0xFE, 0x03],
                     Chunk.buffer [0xFF, 0xFC, 0x03], Chunk.buffer [0xFF, 0xFC, 0x01]] } ∧
    setRawMode s true =
      .ok { s with isRaw := true,
                   written := s.written ++ [Chunk.buffer [0xFF, 0xFD, 0x03],
                     Chunk.buffer [0xFF, 0xFB, 0x03], Chunk.buffer [0xFF, 0xFB, 0x01]] } := by
  constructor
  · simp [setRawMode, s2c_dont_suppress_go_ahead, s2c_wont_suppress_go_ahead, s2c_wont_echo,
      send, bind, Except.bind]
  · simp [setRawMode, s2c_do_suppress_go_ahead, s2c_will_suppress_go_ahead, s2c_will_echo,
      send, bind, Except.bind]

/-- C8 (evaluation of the code): a primitive string or a `Buffer` handed to
`_write` is not `instanceof String`, so it reaches the socket unchanged, the
line feed of `"hello\nworld"` included; only a `String` wrapper object has its
line endings replaced. -/
theorem C8_write_keeps_line_feed :
    (_write freshSession (Chunk.str "hello\nworld")).written
      = freshSession.written ++ [Chunk.str "hello\nworld"] ∧
    Chunk.str "hello\nworld" ≠ Chunk.str "hello\r\nworld" ∧
    (_write freshSession (Chunk.buffer [104, 101, 108, 108, 111, 10, 119, 111, 114, 108, 100])).written
      = freshSession.written
          ++ [Chunk.buffer [104, 101, 108, 108, 111, 10, 119, 111, 114, 108, 100]] ∧
    (_write freshSession (Chunk.stringObject "hello\nworld")).written
      = freshSession.written ++ [Chunk.str "hello\r\nworld"] :=
  ⟨rfl, by decide, rfl, by decide⟩


/-! ## Unknown commands and commands without argument -/

theorem runSession_then_payload (s t : TelnetSession) (pre p : List Nat)
    (hpre : runSession s pre = .ok (t, [])) (ht : t.decode = 0) (hp : ∀ b ∈ p, b ≠ 255) :
    runSession s (pre ++ p) = .ok (t, p) := by
  rw [runSession_append, hpre]
  simp only
  rw [runSession_idle_payload t p ht hp]
  rfl

/-- C9: from the idle state, `IAC x y z` with `x` not a command code is consumed
whole, whatever `y` and `z` are: nothing is emitted, no handler is invoked and
the decoder is idle again; followed by payload `p` without 0xFF, the session
emits exactly `p`, as one `'data'` event when all comes in one chunk, and as
the same concatenated payload in any other chunking. -/
theorem C9_unknown_command_skipped (s : TelnetSession) (x y z : Nat) (p : List Nat)
    (chunks : List (List Nat)) (hidle : s.decode = DECODE_IDLE)
    (hx : x ∉ COMMANDS.map Prod.snd) (hp : ∀ b ∈ p, b ≠ 0xFF)
    (hchunks : chunks.flatten = [0xFF, x, y, z] ++ p) :
    feed s [[0xFF, x, y, z]] = .ok { s with command := 0, option := 0, decode := DECODE_IDLE } ∧
    feed s [[0xFF, x, y, z] ++ p] =
      .ok { s with command := 0, option := 0, decode := DECODE_IDLE,
                   emitted := s.emitted ++ (if p = [] then [] else [Event.data p]) } ∧
    ∃ u, feed s chunks = .ok u ∧ payloadOf u.emitted = payloadOf s.emitted ++ p ∧
      nonData u.emitted = nonData s.emitted ∧ u.calls = s.calls ∧ u.decode = DECODE_IDLE ∧
      u.columns = s.columns ∧ u.rows = s.rows := by
  have hpre := runSession_unknown s x y z hidle hx
  have hrun := runSession_then_payload s _ [255, x, y, z] p hpre rfl hp
  refine ⟨?_, ?_, ?_⟩
  · rw [feed_single]
    exact onData_of_runSession_silent _ _ _ hpre
  · rw [feed_single, onData_eq, hrun]
    by_cases hnil : p = [] <;> simp [hnil]
  · rw [← hchunks] at hrun
    obtain ⟨u, hu, hclear, hpay, hnon⟩ := feed_of_runSession chunks s _ p hrun
    exact ⟨u, hu, hpay, hnon, congrArg (fun v => v.calls) hclear,
      congrArg (fun v => v.decode) hclear, congrArg (fun v => v.columns) hclear,
      congrArg (fun v => v.rows) hclear⟩

/-- C9 at the constructed session: the unknown command 0x01, two 0xFF bytes, then the payload 0x68 0x69, in one chunk and in three. -/
theorem C9_unknown_command_skipped_witness :
    freshSession.decode = DECODE_IDLE ∧ (0x01 : Nat) ∉ COMMANDS.map Prod.snd ∧
    (∀ b ∈ ([0x68, 0x69] : List Nat), b ≠ 0xFF) ∧
    [[0xFF, 0x01], [0xFF, 0xFF, 0x68], [0x69]].flatten = [0xFF, 0x01, 0xFF, 0xFF] ++ [0x68, 0x69] ∧
    feed freshSession [[0xFF, 0x01, 0xFF, 0xFF]] =
      .ok { freshSession with command := 0, option := 0, decode := DECODE_IDLE } ∧
    feed freshSession [[0xFF, 0x01, 0xFF, 0xFF] ++ [0x68, 0x69]] =
      .ok { freshSession with
              command := 0, option := 0, decode := DECODE_IDLE,
              emitted := freshSession.emitted ++
                (if ([0x68, 0x69] : List Nat) = [] then [] else [Event.data [0x68, 0x69]]) } ∧
    ∃ u, feed freshSession [[0xFF, 0x01], [0xFF, 0xFF, 0x68], [0x69]] = .ok u ∧
      payloadOf u.emitted = payloadOf freshSession.emitted ++ [0x68, 0x69] ∧
      nonData u.emitted = nonData freshSession.emitted ∧ u.calls = freshSession.calls ∧
      u.decode = DECODE_IDLE ∧ u.columns = freshSession.columns ∧ u.rows = freshSession.rows :=
  ⟨rfl, by decide, by decide, rfl,
    C9_unknown_command_skipped freshSession 0x01 0xFF 0xFF [0x68, 0x69]
      [[0xFF, 0x01], [0xFF, 0xFF, 0x68], [0x69]] rfl (by decide) (by decide) rfl⟩

/-- A recognized command without its option byte yet: `IAC c`. -/
theorem runSession_command (s : TelnetSession) (c : Nat) (hidle : s.decode = 0)
    (hk : c ∈ COMMANDS.map Prod.snd) :
    runSession s [255, c] = .ok ({ s with command := c, option := 0, decode := 2 }, []) := by
  rw [runSession_cons_ok _ _ _ _ (stepSession_idle_iac s hidle),
    runSession_cons_ok _ _ _ _ (stepSession_command_known _ c rfl hk)]
  simp [runSession_nil, payloadByte_iac, payloadByte_busy]

/-- C10, as stated, fails: after `IAC NOP` the byte 0x41 is taken as the option
byte of NOP, so of the payload 0x41 0x42 only 0x42 is emitted. -/
theorem C10_counterexample_nop_takes_a_byte :
    ∃ u, feed freshSession [[0xFF, 0xF1, 0x41, 0x42]] = .ok u ∧
      u.emitted = [Event.data [0x42]] ∧ payloadOf u.emitted ≠ [0x41, 0x42] := by
  have hrun := runSession_then_payload freshSession _ [255, 0xF1, 0x41] [0x42]
    (runSession_negotiation freshSession 0xF1 0x41 rfl (by decide) (by decide)) rfl (by decide)
  have hfeed := onData_eq freshSession [0xFF, 0xF1, 0x41, 0x42]
  rw [show [0xFF, 0xF1, 0x41, 0x42] = [255, 0xF1, 0x41] ++ [0x42] from rfl, hrun,
    ← feed_single] at hfeed
  exact ⟨_, hfeed, rfl, by decide⟩

/-- C10, amended: NOP, BRK, DM, IP, AO, AYT, EC, EL and GA are recognized, so they
never start the two-byte skip, but like every recognized command they take the
next byte as option byte.  From the idle state, `IAC c` followed by payload `p`
without 0xFF, in any chunking, emits `p` without its first byte; no geometry
changes, and the decoder ends idle, or waits for the option byte when `p` is
empty. -/
theorem C10_argumentless_commands (s : TelnetSession) (c : Nat) (p : List Nat)
    (chunks : List (List Nat)) (hidle : s.decode = DECODE_IDLE)
    (hc : c ∈ [0xF1, 0xF3, 0xF2, 0xF4, 0xF5, 0xF6, 0xF7, 0xF8, 0xF9])
    (hp : ∀ b ∈ p, b ≠ 0xFF) (hchunks : chunks.flatten = [0xFF, c] ++ p) :
    ∃ u, feed s chunks = .ok u ∧ payloadOf u.emitted = payloadOf s.emitted ++ p.tail ∧
      nonData u.emitted = nonData s.emitted ∧ u.command = c ∧
      u.decode = (if p = [] then DECODE_OPTION else DECODE_IDLE) ∧
      u.columns = s.columns ∧ u.rows = s.rows ∧ u.written = s.written := by
  have hall : ∀ k ∈ [0xF1, 0xF3, 0xF2, 0xF4, 0xF5, 0xF6, 0xF7, 0xF8, 0xF9],
      k ∈ COMMANDS.map Prod.snd ∧ k ≠ 250 := by decide
  obtain ⟨hk, hsb⟩ := hall c hc
  cases p with
  | nil =>
    have hrun := runSession_command s c hidle hk
    rw [show [255, c] = [255, c] ++ [] from rfl, ← hchunks] at hrun
    obtain ⟨u, hu, hclear, hpay, hnon⟩ := feed_of_runSession chunks s _ _ hrun
    exact ⟨u, hu, hpay, hnon, congrArg (fun v => v.command) hclear,
      congrArg (fun v => v.decode) hclear, congrArg (fun v => v.columns) hclear,
      congrArg (fun v => v.rows) hclear, congrArg (fun v => v.written) hclear⟩
  | cons o rest =>
    have hrest : ∀ b ∈ rest, b ≠ 255 := fun b hb => hp b (List.mem_cons_of_mem _ hb)
    have hrun := runSession_then_payload s _ [255, c, o] rest
      (runSession_negotiation s c o hidle hk hsb) rfl hrest
    rw [show [255, c, o] ++ rest = [255, c] ++ o :: rest from rfl, ← hchunks] at hrun
    obtain ⟨u, hu, hclear, hpay, hnon⟩ := feed_of_runSession chunks s _ _ hrun
    exact ⟨u, hu, hpay, hnon, congrArg (fun v => v.command) hclear,
      congrArg (fun v => v.decode) hclear, congrArg (fun v => v.columns) hclear,
      congrArg (fun v => v.rows) hclear, congrArg (fun v => v.written) hclear⟩

/-- C10 (amended) at the constructed session for IAC NOP followed by 0x41 0x42. -/
theorem C10_argumentless_commands_witness :
    freshSession.decode = DECODE_IDLE ∧
    (0xF1 : Nat) ∈ [0xF1, 0xF3, 0xF2, 0xF4, 0xF5, 0xF6, 0xF7, 0xF8, 0xF9] ∧
    (∀ b ∈ ([0x41, 0x42] : List Nat), b ≠ 0xFF) ∧
    [[0xFF, 0xF1, 0x41, 0x42]].flatten = [0xFF, 0xF1] ++ [0x41, 0x42] ∧
    ∃ u, feed freshSession [[0xFF, 0xF1, 0x41, 0x42]] = .ok u ∧
      payloadOf u.emitted = payloadOf freshSession.emitted ++ ([0x41, 0x42] : List Nat).tail ∧
      nonData u.emitted = nonData freshSession.emitted ∧ u.command = 0xF1 ∧
      u.decode = (if ([0x41, 0x42] : List Nat) = [] then DECODE_OPTION else DECODE_IDLE) ∧
      u.columns = freshSession.columns ∧ u.rows = freshSession.rows ∧
      u.written = freshSession.written :=
  ⟨rfl, by decide, by decide, rfl,
    C10_argumentless_commands freshSession 0xF1 [0x41, 0x42] [[0xFF, 0xF1, 0x41, 0x42]] rfl
      (by decide) (by decide) rfl⟩


/-! ## The subnegotiation buffer -/

/-- A whole subnegotiation `IAC SB o p IAC SE` from the idle state, with the
buffer it leaves: its slice up to `len` is what of `p` fits into 128 bytes. -/
theorem runSession_subnegotiation_buffer (s : TelnetSession) (o : Nat) (p : List Nat)
    (hidle : s.decode = 0) (hp : ∀ b ∈ p, b ≠ 255) :
    ∃ buf, Buffer.slice0 buf p.length = p.take 128 ∧ buf.length = 128 ∧
      runSession s ([255, 250, o] ++ p ++ [255, 240]) =
        .ok (if o = 31 then
               { nawsResult { s with command := 250, option := 31, param := some buf,
                                     len := p.length, decode := 4,
                                     calls := s.calls ++ [(Handler.naws, p.take 128)] }
                   (p.take 128) with decode := 0 }
             else { s with command := 250, option := o, param := some buf, len := p.length,
                           decode := 0 }, []) := by
  have hslice := pushBytes_slice_take p { buffer := Buffer.alloc 128, buflen := 0 }
  have hlen := pushBytes_buflen { buffer := Buffer.alloc 128, buflen := 0 } p
  have hblen := pushBytes_buffer_length { buffer := Buffer.alloc 128, buflen := 0 } p
  have halloc : (Buffer.alloc 128).length = 128 := by simp [Buffer.alloc]
  simp only [Buffer.slice0, List.take_zero, List.nil_append, halloc, Nat.zero_add] at hslice hlen hblen
  rw [hlen] at hslice
  refine ⟨(pushBytes { buffer := Buffer.alloc 128, buflen := 0 } p).buffer, hslice, hblen, ?_⟩
  rw [List.append_assoc, runSession_append, runSession_sb s o hidle]
  simp only
  rw [runSession_append, runSession_sub_payload p _ (Buffer.alloc 128) rfl rfl hp]
  simp only
  rw [runSession_se _ _ rfl rfl]
  simp only [Buffer.slice0, hslice, hlen]
  by_cases ho : o = 31
  · simp [ho]
  · simp [ho]

/-- C11, as stated, fails: of 129 parameter bytes of a NAWS subnegotiation the
handler receives 128, the last one is dropped. -/
theorem C11_counterexample_truncated_at_128 :
    ∃ u, feed freshSession [[0xFF, 0xFA, 0x1F] ++ List.replicate 129 0x41 ++ [0xFF, 0xF0]] = .ok u ∧
      u.calls = [(Handler.naws, List.replicate 128 0x41)] ∧
      u.calls ≠ [(Handler.naws, List.replicate 129 0x41)] ∧ u.len = 129 := by
  obtain ⟨buf, _, _, hrun⟩ := runSession_subnegotiation_buffer freshSession 0x1F
    (List.replicate 129 0x41) rfl (by
      intro b hb
      rw [List.eq_of_mem_replicate hb]
      decide)
  rw [if_pos rfl] at hrun
  have hfeed := onData_of_runSession_silent _ _ _ hrun
  rw [← feed_single] at hfeed
  have hcalls : ∀ (t : TelnetSession) (data : List Nat),
      t.calls = [(Handler.naws, List.take 128 (List.replicate 129 0x41))] →
      ({ nawsResult t data with decode := 0 } : TelnetSession).calls
        = [(Handler.naws, List.replicate 128 0x41)] := by
    intro t data ht
    show (nawsResult t data).calls = _
    rw [(nawsResult_decoder t data).2.2.2.2.2.1, ht, List.take_replicate]
    rfl
  have hlen : ∀ (t : TelnetSession) (data : List Nat), t.len = 129 →
      ({ nawsResult t data with decode := 0 } : TelnetSession).len = 129 := by
    intro t data ht
    show (nawsResult t data).len = _
    rw [(nawsResult_decoder t data).2.2.2.2.1, ht]
  refine ⟨_, hfeed, hcalls _ _ rfl, ?_, hlen _ _ (List.length_replicate _ _)⟩
  rw [hcalls _ _ rfl]
  intro h
  have hl := congrArg (fun l => l.map (fun call => call.2.length)) h
  simp at hl


/-- The fields of the session after a whole subnegotiation `IAC SB o p IAC SE`
decoded from the idle state. -/
theorem runSession_subnegotiation_fields (s : TelnetSession) (o : Nat) (p : List Nat)
    (hidle : s.decode = 0) (hp : ∀ b ∈ p, b ≠ 255) :
    ∃ t buf, runSession s ([255, 250, o] ++ p ++ [255, 240]) = .ok (t, []) ∧
      t.decode = 0 ∧ t.command = 250 ∧ t.option = o ∧ t.param = some buf ∧ buf.length = 128 ∧
      t.len = p.length ∧ Buffer.slice0 buf p.length = p.take 128 ∧
      t.calls = s.calls ++ (if o = 31 then [(Handler.naws, p.take 128)] else []) ∧
      t.written = s.written ∧ t.isRaw = s.isRaw ∧ t.isTTY = s.isTTY ∧
      payloadOf t.emitted = payloadOf s.emitted ∧
      (o ≠ 31 → t.columns = s.columns ∧ t.rows = s.rows ∧ t.emitted = s.emitted) := by
  obtain ⟨buf, hslice, hblen, hrun⟩ := runSession_subnegotiation_buffer s o p hidle hp
  by_cases ho : o = 31
  · subst ho
    rw [if_pos rfl] at hrun
    have hd := nawsResult_decoder
      { s with command := 250, option := 31, param := some buf, len := p.length, decode := 4,
               calls := s.calls ++ [(Handler.naws, p.take 128)] } (p.take 128)
    have hpay := nawsResult_payloadOf
      { s with command := 250, option := 31, param := some buf, len := p.length, decode := 4,
               calls := s.calls ++ [(Handler.naws, p.take 128)] } (p.take 128)
    obtain ⟨_, h2, h3, h4, h5, h6, h7, h8, h9⟩ := hd
    refine ⟨_, buf, hrun, rfl, h3, h4, h2, hblen, h5, hslice, ?_, h7, h8, h9, hpay, ?_⟩
    · rw [if_pos rfl]
      exact h6
    · intro h
      exact absurd rfl h
  · rw [if_neg ho] at hrun
    refine ⟨_, buf, hrun, rfl, rfl, rfl, rfl, hblen, rfl, hslice, ?_, rfl, rfl, rfl, rfl, ?_⟩
    · rw [if_neg ho, List.append_nil]
    · intro _
      exact ⟨rfl, rfl, rfl⟩

/-- C11, amended: the subnegotiation buffer holds 128 bytes.  For parameter bytes
`p` without 0xFF, `IAC SB o p IAC SE` decoded from the idle state leaves `len`
equal to the length of `p` and a buffer whose slice up to `len` is the first 128
bytes of `p`; this slice is what the handler of NAWS, the only one registered,
receives.  It is `p` byte for byte when `p` has at most 128 bytes. -/
theorem C11_subnegotiation_buffer_bounded (s : TelnetSession) (o : Nat) (p : List Nat)
    (hidle : s.decode = DECODE_IDLE) (hp : ∀ b ∈ p, b ≠ 0xFF) :
    ∃ u buf, feed s [[0xFF, 0xFA, o] ++ p ++ [0xFF, 0xF0]] = .ok u ∧
      u.param = some buf ∧ buf.length = 128 ∧ u.len = p.length ∧
      Buffer.slice0 buf u.len = p.take 128 ∧
      u.calls = s.calls ++ (if o = 0x1F then [(Handler.naws, p.take 128)] else []) ∧
      (p.length ≤ 128 → Buffer.slice0 buf u.len = p ∧
        u.calls = s.calls ++ (if o = 0x1F then [(Handler.naws, p)] else [])) ∧
      u.decode = DECODE_IDLE ∧ payloadOf u.emitted = payloadOf s.emitted := by
  obtain ⟨t, buf, hrun, hdec, _, _, hpar, hblen, hlen, hslice, hcalls, _, _, _, hpay, _⟩ :=
    runSession_subnegotiation_fields s o p hidle hp
  have hfeed := onData_of_runSession_silent _ _ _ hrun
  rw [← feed_single] at hfeed
  refine ⟨t, buf, hfeed, hpar, hblen, hlen, by rw [hlen]; exact hslice, hcalls, ?_, hdec, hpay⟩
  intro hle
  have htake : p.take 128 = p := List.take_of_length_le hle
  rw [hlen, hslice, hcalls, htake]
  exact ⟨rfl, rfl⟩

/-- C11 (amended) at the constructed session for the NAWS parameter bytes 00 50 00 18. -/
theorem C11_subnegotiation_buffer_bounded_witness :
    freshSession.decode = DECODE_IDLE ∧ (∀ b ∈ ([0x00, 0x50, 0x00, 0x18] : List Nat), b ≠ 0xFF) ∧
    ∃ u buf, feed freshSession [[0xFF, 0xFA, 0x1F] ++ [0x00, 0x50, 0x00, 0x18] ++ [0xFF, 0xF0]]
        = .ok u ∧
      u.param = some buf ∧ buf.length = 128 ∧ u.len = ([0x00, 0x50, 0x00, 0x18] : List Nat).length ∧
      Buffer.slice0 buf u.len = ([0x00, 0x50, 0x00, 0x18] : List Nat).take 128 ∧
      u.calls = freshSession.calls ++
        (if 0x1F = 0x1F then [(Handler.naws, ([0x00, 0x50, 0x00, 0x18] : List Nat).take 128)]
         else []) ∧
      (([0x00, 0x50, 0x00, 0x18] : List Nat).length ≤ 128 →
        Buffer.slice0 buf u.len = [0x00, 0x50, 0x00, 0x18] ∧
        u.calls = freshSession.calls ++
          (if 0x1F = 0x1F then [(Handler.naws, [0x00, 0x50, 0x00, 0x18])] else [])) ∧
      u.decode = DECODE_IDLE ∧ payloadOf u.emitted = payloadOf freshSession.emitted :=
  ⟨rfl, by decide,
    C11_subnegotiation_buffer_bounded freshSession 0x1F [0x00, 0x50, 0x00, 0x18] rfl (by decide)⟩


/-! ## Close -/

theorem onClose_eq_prepend (s : TelnetSession) :
    onClose s = prependEmitted (s.emitted ++ [Event.close]) (clearEmitted s) := by
  simp [onClose, prependEmitted, clearEmitted]

/-- C12, as stated, fails: a NAWS subnegotiation handed to the `'data'` callback
after the `'close'` callback still invokes the handler, changes the geometry and
emits `'resize'`; and a subnegotiation begun before `'close'` is completed after
it from the bytes kept in the buffer. -/
theorem C12_counterexample_dispatch_after_close :
    (∃ u, feed (onClose freshSession) [[0xFF, 0xFA, 0x1F, 0x00, 0x64, 0x00, 0x28, 0xFF, 0xF0]]
        = .ok u ∧
      u.calls = [(Handler.naws, [0x00, 0x64, 0x00, 0x28])] ∧ u.columns = 100 ∧ u.rows = 40 ∧
      u.emitted = [Event.close, Event.resize]) ∧
    (∃ u1 u2, feed freshSession [[0xFF, 0xFA, 0x1F, 0x00, 0x64]] = .ok u1 ∧
      feed (onClose u1) [[0x00, 0x28, 0xFF, 0xF0]] = .ok u2 ∧
      (onClose u1).len = 2 ∧ (onClose u1).decode = DECODE_SUBNEGOTIATION ∧
      u2.calls = [(Handler.naws, [0x00, 0x64, 0x00, 0x28])] ∧ u2.columns = 100 ∧ u2.rows = 40 ∧
      u2.emitted = [Event.close, Event.resize]) := by
  constructor
  · obtain ⟨buf, hrun⟩ := runSession_subnegotiation (onClose freshSession) 0x1F
      [0x00, 0x64, 0x00, 0x28] rfl (by decide)
    have hfeed := onData_of_runSession_silent _ _ _ hrun
    rw [← feed_single] at hfeed
    refine ⟨_, hfeed, ?_, ?_, ?_, ?_⟩ <;> simp [nawsResult, onClose, freshSession, fieldDefaults]
  · have h1 := runSession_append freshSession [255, 250, 31] [0x00, 0x64]
    rw [runSession_sb freshSession 31 rfl] at h1
    simp only at h1
    rw [runSession_sub_payload [0x00, 0x64] _ (Buffer.alloc 128) rfl rfl (by decide)] at h1
    have hfeed1 := onData_of_runSession_silent _ _ _ h1
    rw [← feed_single] at hfeed1
    have h2 := runSession_append
      (onClose { freshSession with
        command := 250, option := 31,
        param := some (pushBytes { buffer := Buffer.alloc 128, buflen := 0 } [0x00, 0x64]).buffer,
        len := (pushBytes { buffer := Buffer.alloc 128, buflen := 0 } [0x00, 0x64]).buflen,
        decode := 3 }) [0x00, 0x28] [255, 240]
    rw [runSession_sub_payload [0x00, 0x28] _ _ rfl rfl (by decide)] at h2
    simp only at h2
    rw [runSession_se _ _ rfl rfl] at h2
    have hfeed2 := onData_of_runSession_silent _ _ _ h2
    rw [← feed_single] at hfeed2
    refine ⟨_, _, hfeed1, hfeed2, rfl, rfl, ?_, ?_, ?_, ?_⟩ <;>
      simp [nawsResult, onClose, freshSession, fieldDefaults, pushBytes, Buffer.store,
        Buffer.slice0, Buffer.alloc]


/-- C12, amended: the `'close'` callback only emits `'close'`; decoder state,
pending command and option, and the subnegotiation buffer stay as they are.
The `'data'` callback has no check for a closed connection: chunks processed
after `'close'` are decoded as they would be without it, with the same handler
invocations, geometry, decoder variables, payload and further events. -/
theorem C12_close_keeps_decoding (s : TelnetSession) (chunks : List (List Nat))
    (halloc : Allocated s) :
    onClose s = { s with emitted := s.emitted ++ [Event.close] } ∧
    ∃ u1 u2 later, feed s chunks = .ok u1 ∧ feed (onClose s) chunks = .ok u2 ∧
      u2.calls = u1.calls ∧ u2.columns = u1.columns ∧ u2.rows = u1.rows ∧
      u2.decode = u1.decode ∧ u2.param = u1.param ∧ u2.len = u1.len ∧
      payloadOf u2.emitted = payloadOf u1.emitted ∧
      nonData u1.emitted = nonData s.emitted ++ later ∧
      nonData u2.emitted = nonData s.emitted ++ Event.close :: later := by
  refine ⟨rfl, ?_⟩
  obtain ⟨r, out, hr, _⟩ := runSession_allocated (clearEmitted s) chunks.flatten halloc
  have h1 := runSession_prepend s.emitted (clearEmitted s) chunks.flatten
  rw [prepend_clear, hr] at h1
  have h2 := runSession_prepend (s.emitted ++ [Event.close]) (clearEmitted s) chunks.flatten
  rw [← onClose_eq_prepend, hr] at h2
  obtain ⟨u1, hu1, hc1, hp1, hn1⟩ := feed_of_runSession chunks s _ out h1
  obtain ⟨u2, hu2, hc2, hp2, hn2⟩ := feed_of_runSession chunks (onClose s) _ out h2
  have hc : clearEmitted u2 = clearEmitted u1 := hc2.trans hc1.symm
  refine ⟨u1, u2, nonData r.emitted, hu1, hu2, congrArg (fun v => v.calls) hc,
    congrArg (fun v => v.columns) hc, congrArg (fun v => v.rows) hc,
    congrArg (fun v => v.decode) hc, congrArg (fun v => v.param) hc,
    congrArg (fun v => v.len) hc, ?_, ?_, ?_⟩
  · rw [hp1, hp2]
    simp [onClose, payloadOf_append, payloadOf]
  · rw [hn1]
    simp [prependEmitted, nonData_append]
  · rw [hn2]
    simp [prependEmitted, nonData_append, nonData]

/-- C12 (amended) at the constructed session for the chunk IAC SB NAWS 00 50 00 18 IAC SE. -/
theorem C12_close_keeps_decoding_witness :
    Allocated freshSession ∧
    onClose freshSession = { freshSession with emitted := freshSession.emitted ++ [Event.close] } ∧
    ∃ u1 u2 later,
      feed freshSession [[0xFF, 0xFA, 0x1F, 0x00, 0x50, 0x00, 0x18, 0xFF, 0xF0]] = .ok u1 ∧
      feed (onClose freshSession) [[0xFF, 0xFA, 0x1F, 0x00, 0x50, 0x00, 0x18, 0xFF, 0xF0]]
        = .ok u2 ∧
      u2.calls = u1.calls ∧ u2.columns = u1.columns ∧ u2.rows = u1.rows ∧
      u2.decode = u1.decode ∧ u2.param = u1.param ∧ u2.len = u1.len ∧
      payloadOf u2.emitted = payloadOf u1.emitted ∧
      nonData u1.emitted = nonData freshSession.emitted ++ later ∧
      nonData u2.emitted = nonData freshSession.emitted ++ Event.close :: later :=
  ⟨by decide,
    C12_close_keeps_decoding freshSession
      [[0xFF, 0xFA, 0x1F, 0x00, 0x50, 0x00, 0x18, 0xFF, 0xF0]] (by decide)⟩

/-! ## The sender table and the accessors -/

/-- C13: for each command name among DO, DONT, WILL, WONT with its code in
`COMMANDS` and each option name with its code in `OPTIONS`, the entry of `#s2c`
under the two lower-case names makes one write, of the three bytes 0xFF, command
code, option code, and changes no other field of the session. -/
theorem C13_sender_writes_three_bytes (s : TelnetSession) (commandName optionName : String)
    (commandCode optionCode : Nat) (hname : commandName ∈ negotiationCommands)
    (hcommand : (commandName, commandCode) ∈ COMMANDS)
    (hoption : (optionName, optionCode) ∈ OPTIONS) :
    s2c (toLowerCase commandName) (toLowerCase optionName) s =
      .ok { s with written := s.written ++ [Chunk.buffer [0xFF, commandCode, optionCode]] } := by
  have hfc : ∀ c ∈ negotiationCommands,
      (negotiationCommands.filter (fun x => toLowerCase x == toLowerCase c)).getLast? = some c := by
    decide
  have hfo : ∀ kv ∈ OPTIONS,
      ((OPTIONS.map Prod.fst).filter (fun x => toLowerCase x == toLowerCase kv.1)).getLast?
        = some kv.1 := by
    decide
  have hbc : ∀ kv ∈ COMMANDS, tableByte COMMANDS kv.1 = kv.2 := by decide
  have hbo : ∀ kv ∈ OPTIONS, tableByte OPTIONS kv.1 = kv.2 := by decide
  have h1 := hfc commandName hname
  have h2 := hfo _ hoption
  have h3 := hbc _ hcommand
  have h4 := hbo _ hoption
  simp only at h2 h3 h4
  simp only [s2c, h1, h2, s2cEntry, h3, h4, IAC_eq, send]
  rfl

/-- C13 for WONT (0xFC) and NEW_ENVIRON (0x27). -/
theorem C13_sender_writes_three_bytes_witness :
    "WONT" ∈ negotiationCommands ∧ ("WONT", 0xFC) ∈ COMMANDS ∧ ("NEW_ENVIRON", 0x27) ∈ OPTIONS ∧
    s2c (toLowerCase "WONT") (toLowerCase "NEW_ENVIRON") freshSession =
      .ok { freshSession with
              written := freshSession.written ++ [Chunk.buffer [0xFF, 0xFC, 0x27]] } :=
  ⟨by decide, by decide, by decide,
    C13_sender_writes_three_bytes freshSession "WONT" "NEW_ENVIRON" 0xFC 0x27 (by decide)
      (by decide) (by decide)⟩

/-- C14: the constructed session has 80 columns, 24 rows, `isRaw` and `isTTY`
true; and in every state of a session `getWindowSize()` is the pair of the
current `columns` and `rows`, in this order. -/
theorem C14_defaults_and_window_size :
    (∃ s, construct = .ok s ∧ s.columns = 80 ∧ s.rows = 24 ∧ s.isRaw = true ∧ s.isTTY = true ∧
      getWindowSize s = [80, 24]) ∧
    ∀ t : TelnetSession, getWindowSize t = [t.columns, t.rows] :=
  ⟨⟨freshSession, construct_eq, rfl, rfl, rfl, rfl, rfl⟩, fun _ => rfl⟩


/-! ## IAC inside a subnegotiation -/

/-- Inside a subnegotiation `IAC b`, with `b` neither SE nor IAC, is decoded as
the single byte `b`. -/
theorem runSession_sub_iac_byte (s : TelnetSession) (buf : List Nat) (b : Nat) (rest : List Nat)
    (hd : s.decode = 3) (hbuf : s.param = some buf) (hse : b ≠ 240) (hiac : b ≠ 255) :
    runSession s ([255, b] ++ rest) = runSession s ([b] ++ rest) := by
  have h2 : stepSession { s with decode := 4 } b
      = .ok { s with param := some (Buffer.store buf s.len b), len := s.len + 1 } := by
    rw [stepSession_end_store { s with decode := 4 } b buf rfl hse hiac hbuf]
    cases s
    simp only at hd
    subst hd
    rfl
  show runSession s (255 :: b :: rest) = runSession s (b :: rest)
  rw [runSession_cons_ok _ _ _ _ (stepSession_sub_iac s hd), runSession_cons_ok _ _ _ _ h2,
    runSession_cons_ok _ _ _ _ (stepSession_sub_store s b buf hd hiac hbuf),
    payloadByte_iac, payloadByte_busy _ b (by simp), payloadByte_busy s b (by simp [hd])]
  cases runSession { s with param := some (Buffer.store buf s.len b), len := s.len + 1 } rest with
  | error e => rfl
  | ok r => rfl

/-- The session inside a subnegotiation, after `IAC SB o p`. -/
theorem runSession_sb_payload (s : TelnetSession) (o : Nat) (p : List Nat) (hidle : s.decode = 0)
    (hp : ∀ b ∈ p, b ≠ 255) :
    ∃ buf, Buffer.slice0 buf p.length = p.take 128 ∧ buf.length = 128 ∧
      runSession s ([255, 250, o] ++ p) =
        .ok ({ s with command := 250, option := o, param := some buf, len := p.length,
                      decode := 3 }, []) := by
  have hslice := pushBytes_slice_take p { buffer := Buffer.alloc 128, buflen := 0 }
  have hlen := pushBytes_buflen { buffer := Buffer.alloc 128, buflen := 0 } p
  have hblen := pushBytes_buffer_length { buffer := Buffer.alloc 128, buflen := 0 } p
  have halloc : (Buffer.alloc 128).length = 128 := by simp [Buffer.alloc]
  simp only [Buffer.slice0, List.take_zero, List.nil_append, halloc, Nat.zero_add] at hslice hlen hblen
  rw [hlen] at hslice
  refine ⟨(pushBytes { buffer := Buffer.alloc 128, buflen := 0 } p).buffer, hslice, hblen, ?_⟩
  rw [runSession_append, runSession_sb s o hidle]
  simp only
  rw [runSession_sub_payload p _ (Buffer.alloc 128) rfl rfl hp]
  simp only [hlen, List.append_nil]

theorem runSession_sb_iac_byte (s : TelnetSession) (o b : Nat) (p rest : List Nat)
    (hidle : s.decode = 0) (hp : ∀ x ∈ p, x ≠ 255) (hse : b ≠ 240) (hiac : b ≠ 255) :
    runSession s ([255, 250, o] ++ p ++ [255, b] ++ rest)
      = runSession s ([255, 250, o] ++ (p ++ [b]) ++ rest) := by
  obtain ⟨buf, _, _, hrun⟩ := runSession_sb_payload s o p hidle hp
  have e1 : [255, 250, o] ++ p ++ [255, b] ++ rest = ([255, 250, o] ++ p) ++ ([255, b] ++ rest) := by
    simp
  have e2 : [255, 250, o] ++ (p ++ [b]) ++ rest = ([255, 250, o] ++ p) ++ ([b] ++ rest) := by
    simp
  have hL := runSession_append s ([255, 250, o] ++ p) ([255, b] ++ rest)
  have hR := runSession_append s ([255, 250, o] ++ p) ([b] ++ rest)
  rw [hrun] at hL hR
  simp only at hL hR
  rw [e1, e2, hL, hR, runSession_sub_iac_byte _ buf b rest rfl rfl hse hiac]


/-- C15, as stated, fails: for option TERMINAL_TYPE (0x18), which has no
registered handler, `IAC SB 18 01 IAC 02 03 IAC SE` accumulates the buffer
01 02 03 but dispatches it to nobody: no handler is invoked. -/
theorem C15_counterexample_no_dispatch_without_handler :
    ∃ u buf, feed freshSession [[0xFF, 0xFA, 0x18, 0x01, 0xFF, 0x02, 0x03, 0xFF, 0xF0]] = .ok u ∧
      u.param = some buf ∧ Buffer.slice0 buf u.len = [0x01, 0x02, 0x03] ∧
      u.calls = [] ∧ ¬ u.calls.length = 1 := by
  obtain ⟨t, buf, hrun, _, _, _, hpar, _, hl, hslice, hcalls, _, _, _, _, _⟩ :=
    runSession_subnegotiation_fields freshSession 0x18 [0x01, 0x02, 0x03] rfl (by decide)
  have heq := runSession_sb_iac_byte freshSession 0x18 0x02 [0x01] ([0x03] ++ [255, 240]) rfl
    (by decide) (by decide) (by decide)
  have hflat : runSession freshSession [0xFF, 0xFA, 0x18, 0x01, 0xFF, 0x02, 0x03, 0xFF, 0xF0]
      = .ok (t, []) := heq.trans hrun
  have hfeed := onData_of_runSession_silent _ _ _ hflat
  rw [← feed_single] at hfeed
  have hc : t.calls = [] := by
    rw [hcalls, if_neg (by decide)]
    rfl
  refine ⟨t, buf, hfeed, hpar, ?_, hc, ?_⟩
  · rw [hl]
    exact hslice
  · rw [hc]
    decide

/-- C15, amended: inside a subnegotiation, `IAC b` with `b` neither SE nor IAC
makes the decoder resume SUBNEGOTIATION with `b` appended to the buffer and the
IAC stored nowhere.  For `p` and `q` without 0xFF and at most 128 bytes in all,
`IAC SB o p IAC b q IAC SE` leaves the accumulated buffer `p ++ [b] ++ q`; this
payload is dispatched to a handler, once, only when `o` is NAWS (0x1F), the only
option with a registered handler, and for every other option no handler is
invoked. -/
theorem C15_iac_inside_subnegotiation (s : TelnetSession) (o b : Nat) (p q : List Nat)
    (hidle : s.decode = DECODE_IDLE) (hp : ∀ x ∈ p, x ≠ 0xFF) (hq : ∀ x ∈ q, x ≠ 0xFF)
    (hse : b ≠ 0xF0) (hiac : b ≠ 0xFF) (hlen : p.length + 1 + q.length ≤ 128) :
    (∃ u buf, feed s [[0xFF, 0xFA, o] ++ p ++ [0xFF, b]] = .ok u ∧
      u.decode = DECODE_SUBNEGOTIATION ∧ u.param = some buf ∧ u.len = p.length + 1 ∧
      Buffer.slice0 buf u.len = p ++ [b] ∧ u.calls = s.calls ∧ u.emitted = s.emitted) ∧
    (∃ u buf, feed s [[0xFF, 0xFA, o] ++ p ++ [0xFF, b] ++ q ++ [0xFF, 0xF0]] = .ok u ∧
      u.decode = DECODE_IDLE ∧ u.param = some buf ∧ u.len = p.length + 1 + q.length ∧
      Buffer.slice0 buf u.len = p ++ [b] ++ q ∧
      u.calls = s.calls ++ (if o = 0x1F then [(Handler.naws, p ++ [b] ++ q)] else []) ∧
      payloadOf u.emitted = payloadOf s.emitted) := by
  have hpb : ∀ x ∈ p ++ [b], x ≠ 255 := by
    intro x hx
    rcases List.mem_append.1 hx with h | h
    · exact hp x h
    · rw [List.mem_singleton.1 h]
      exact hiac
  have hpbq : ∀ x ∈ p ++ [b] ++ q, x ≠ 255 := by
    intro x hx
    rcases List.mem_append.1 hx with h | h
    · exact hpb x h
    · exact hq x h
  constructor
  · obtain ⟨buf, hslice, _, hrun⟩ := runSession_sb_payload s o (p ++ [b]) hidle hpb
    have heq := runSession_sb_iac_byte s o b p [] hidle hp hse hiac
    rw [List.append_nil, List.append_nil, hrun] at heq
    have hfeed := onData_of_runSession_silent _ _ _ heq
    rw [← feed_single] at hfeed
    have hl : (p ++ [b]).length = p.length + 1 := by simp
    have htake : (p ++ [b]).take 128 = p ++ [b] := List.take_of_length_le (by omega)
    refine ⟨_, buf, hfeed, rfl, rfl, hl, ?_, rfl, rfl⟩
    show Buffer.slice0 buf (p ++ [b]).length = p ++ [b]
    rw [hslice, htake]
  · obtain ⟨t, buf, hrun, hdec, _, _, hpar, _, hl, hslice, hcalls, _, _, _, hpay, _⟩ :=
      runSession_subnegotiation_fields s o (p ++ [b] ++ q) hidle hpbq
    have heq := runSession_sb_iac_byte s o b p (q ++ [255, 240]) hidle hp hse hiac
    have e1 : [255, 250, o] ++ p ++ [255, b] ++ (q ++ [255, 240])
        = [255, 250, o] ++ p ++ [255, b] ++ q ++ [255, 240] := by simp
    have e2 : [255, 250, o] ++ (p ++ [b]) ++ (q ++ [255, 240])
        = [255, 250, o] ++ (p ++ [b] ++ q) ++ [255, 240] := by simp
    rw [e1, e2, hrun] at heq
    have hfeed := onData_of_runSession_silent _ _ _ heq
    rw [← feed_single] at hfeed
    have hlen2 : (p ++ [b] ++ q).length = p.length + 1 + q.length := by
      simp only [List.length_append, List.length_singleton]
    have htake : (p ++ [b] ++ q).take 128 = p ++ [b] ++ q :=
      List.take_of_length_le (by omega)
    rw [htake] at hslice hcalls
    refine ⟨t, buf, hfeed, hdec, hpar, hl.trans hlen2, ?_, hcalls, hpay⟩
    rw [hl]
    exact hslice

/-- C15 (amended) at the constructed session: NAWS parameters 00 50, then IAC 00, then 18. -/
theorem C15_iac_inside_subnegotiation_witness :
    freshSession.decode = DECODE_IDLE ∧ (∀ x ∈ ([0x00, 0x50] : List Nat), x ≠ 0xFF) ∧
    (∀ x ∈ ([0x18] : List Nat), x ≠ 0xFF) ∧ (0x00 : Nat) ≠ 0xF0 ∧ (0x00 : Nat) ≠ 0xFF ∧
    ([0x00, 0x50] : List Nat).length + 1 + ([0x18] : List Nat).length ≤ 128 ∧
    (∃ u buf, feed freshSession [[0xFF, 0xFA, 0x1F] ++ [0x00, 0x50] ++ [0xFF, 0x00]] = .ok u ∧
      u.decode = DECODE_SUBNEGOTIATION ∧ u.param = some buf ∧
      u.len = ([0x00, 0x50] : List Nat).length + 1 ∧
      Buffer.slice0 buf u.len = [0x00, 0x50] ++ [0x00] ∧ u.calls = freshSession.calls ∧
      u.emitted = freshSession.emitted) ∧
    (∃ u buf, feed freshSession
        [[0xFF, 0xFA, 0x1F] ++ [0x00, 0x50] ++ [0xFF, 0x00] ++ [0x18] ++ [0xFF, 0xF0]] = .ok u ∧
      u.decode = DECODE_IDLE ∧ u.param = some buf ∧
      u.len = ([0x00, 0x50] : List Nat).length + 1 + ([0x18] : List Nat).length ∧
      Buffer.slice0 buf u.len = [0x00, 0x50] ++ [0x00] ++ [0x18] ∧
      u.calls = freshSession.calls ++
        (if 0x1F = 0x1F then [(Handler.naws, [0x00, 0x50] ++ [0x00] ++ [0x18])] else []) ∧
      payloadOf u.emitted = payloadOf freshSession.emitted) :=
  ⟨rfl, by decide, by decide, by decide, by decide, by decide,
    C15_iac_inside_subnegotiation freshSession 0x1F 0x00 [0x00, 0x50] [0x18] rfl (by decide)
      (by decide) (by decide) (by decide) (by decide)⟩


/-! ## Options without handler, and consecutive subnegotiations -/

/-- C16: for an option byte `o` other than NAWS (0x1F), in the `OPTIONS` table or
not, no handler is registered and the dispatch does nothing: from the idle
state both `IAC c o`, for every command code `c` other than SB, and
`IAC SB o p IAC SE`, for parameter bytes `p` without 0xFF of any length, are
consumed with `columns`, `rows` and `isRaw` unchanged, no event emitted, nothing
written to the socket, no handler invoked and the decoder idle again. -/
theorem C16_unregistered_option_is_noop (s : TelnetSession) (c o : Nat) (p : List Nat)
    (hidle : s.decode = DECODE_IDLE) (ho : o ≠ 0x1F) (hc : c ∈ COMMANDS.map Prod.snd)
    (hsb : c ≠ 0xFA) (hp : ∀ b ∈ p, b ≠ 0xFF) :
    (∃ u, feed s [[0xFF, c, o]] = .ok u ∧ u.decode = DECODE_IDLE ∧ u.columns = s.columns ∧
      u.rows = s.rows ∧ u.isRaw = s.isRaw ∧ u.emitted = s.emitted ∧ u.written = s.written ∧
      u.calls = s.calls) ∧
    (∃ u, feed s [[0xFF, 0xFA, o] ++ p ++ [0xFF, 0xF0]] = .ok u ∧ u.decode = DECODE_IDLE ∧
      u.columns = s.columns ∧ u.rows = s.rows ∧ u.isRaw = s.isRaw ∧ u.emitted = s.emitted ∧
      u.written = s.written ∧ u.calls = s.calls) := by
  constructor
  · have hrun := runSession_negotiation s c o hidle hc hsb
    rw [if_neg ho, List.append_nil] at hrun
    have hfeed := onData_of_runSession_silent _ _ _ hrun
    rw [← feed_single] at hfeed
    exact ⟨_, hfeed, rfl, rfl, rfl, rfl, rfl, rfl, rfl⟩
  · obtain ⟨t, buf, hrun, hdec, _, _, _, _, _, _, hcalls, hwr, hraw, _, _, hgeo⟩ :=
      runSession_subnegotiation_fields s o p hidle hp
    obtain ⟨hcol, hrow, hem⟩ := hgeo ho
    rw [if_neg ho, List.append_nil] at hcalls
    have hfeed := onData_of_runSession_silent _ _ _ hrun
    rw [← feed_single] at hfeed
    exact ⟨t, hfeed, hdec, hcol, hrow, hraw, hem, hwr, hcalls⟩

/-- C16 at the constructed session: WILL with the option byte 0x63, which is not
in the `OPTIONS` table, and a subnegotiation of TERMINAL_TYPE (0x18). -/
theorem C16_unregistered_option_is_noop_witness :
    freshSession.decode = DECODE_IDLE ∧ (0x63 : Nat) ≠ 0x1F ∧ (0xFB : Nat) ∈ COMMANDS.map Prod.snd ∧
    (0xFB : Nat) ≠ 0xFA ∧ (∀ b ∈ ([0x00, 0x41, 0x42] : List Nat), b ≠ 0xFF) ∧
    (∃ u, feed freshSession [[0xFF, 0xFB, 0x63]] = .ok u ∧ u.decode = DECODE_IDLE ∧
      u.columns = freshSession.columns ∧ u.rows = freshSession.rows ∧
      u.isRaw = freshSession.isRaw ∧ u.emitted = freshSession.emitted ∧
      u.written = freshSession.written ∧ u.calls = freshSession.calls) ∧
    (∃ u, feed freshSession [[0xFF, 0xFA, 0x63] ++ [0x00, 0x41, 0x42] ++ [0xFF, 0xF0]] = .ok u ∧
      u.decode = DECODE_IDLE ∧ u.columns = freshSession.columns ∧ u.rows = freshSession.rows ∧
      u.isRaw = freshSession.isRaw ∧ u.emitted = freshSession.emitted ∧
      u.written = freshSession.written ∧ u.calls = freshSession.calls) :=
  ⟨rfl, by decide, by decide, by decide, by decide,
    C16_unregistered_option_is_noop freshSession 0xFB 0x63 [0x00, 0x41, 0x42] rfl (by decide)
      (by decide) (by decide) (by decide)⟩

/-- C19, as stated, fails: two subnegotiations of TERMINAL_TYPE (0x18), which
has no registered handler, `IAC SB 18 01 02 IAC SE IAC SB 18 03 IAC SE`, are
consumed without any dispatch: no handler is invoked, not twice. -/
theorem C19_counterexample_no_dispatch_without_handler :
    ∃ u buf, feed freshSession
        [[0xFF, 0xFA, 0x18, 0x01, 0x02, 0xFF, 0xF0, 0xFF, 0xFA, 0x18, 0x03, 0xFF, 0xF0]] = .ok u ∧
      u.param = some buf ∧ Buffer.slice0 buf u.len = [0x03] ∧
      u.calls = [] ∧ ¬ u.calls.length = 2 := by
  obtain ⟨t1, _, hrun1, hdec1, _, _, _, _, _, _, hcalls1, _, _, _, _, _⟩ :=
    runSession_subnegotiation_fields freshSession 0x18 [0x01, 0x02] rfl (by decide)
  obtain ⟨t2, buf, hrun2, _, _, _, hpar, _, hl, hslice, hcalls2, _, _, _, _, _⟩ :=
    runSession_subnegotiation_fields t1 0x18 [0x03] hdec1 (by decide)
  have hrun := runSession_append freshSession ([255, 250, 0x18] ++ [0x01, 0x02] ++ [255, 240])
    ([255, 250, 0x18] ++ [0x03] ++ [255, 240])
  rw [hrun1] at hrun
  simp only at hrun
  rw [hrun2] at hrun
  simp only [List.append_nil] at hrun
  have hflat : runSession freshSession
      [0xFF, 0xFA, 0x18, 0x01, 0x02, 0xFF, 0xF0, 0xFF, 0xFA, 0x18, 0x03, 0xFF, 0xF0]
      = .ok (t2, []) := hrun
  have hfeed := onData_of_runSession_silent _ _ _ hflat
  rw [← feed_single] at hfeed
  have hc : t2.calls = [] := by
    rw [hcalls2, hcalls1, if_neg (by decide)]
    rfl
  refine ⟨t2, buf, hfeed, hpar, ?_, hc, ?_⟩
  · rw [hl]
    exact hslice
  · rw [hc]
    decide

/-- C19, amended: the subnegotiation buffer starts empty at each `IAC SB o`.  For
`p` and `q` without 0xFF and of at most 128 bytes,
`IAC SB o1 p IAC SE IAC SB o2 q IAC SE` decoded from the idle state ends the
first subnegotiation with the accumulated buffer exactly `p` and the second with
the accumulated buffer exactly `q`, also when `q` is shorter than `p`.  Each
buffer is dispatched to a handler only when its option is NAWS (0x1F), the only
option with a registered handler: two handler invocations, with `p` and then
`q`, when both options are NAWS, and none for any other option. -/
theorem C19_buffer_reset_per_subnegotiation (s : TelnetSession) (o1 o2 : Nat) (p q : List Nat)
    (hidle : s.decode = DECODE_IDLE) (hp : ∀ b ∈ p, b ≠ 0xFF) (hq : ∀ b ∈ q, b ≠ 0xFF)
    (hpl : p.length ≤ 128) (hql : q.length ≤ 128) :
    (∃ u buf, feed s [[0xFF, 0xFA, o1] ++ p ++ [0xFF, 0xF0]] = .ok u ∧ u.option = o1 ∧
      u.param = some buf ∧ Buffer.slice0 buf u.len = p ∧
      u.calls = s.calls ++ (if o1 = 0x1F then [(Handler.naws, p)] else [])) ∧
    (∃ u buf, feed s [[0xFF, 0xFA, o1] ++ p ++ [0xFF, 0xF0] ++ ([0xFF, 0xFA, o2] ++ q ++ [0xFF, 0xF0])]
        = .ok u ∧
      u.option = o2 ∧ u.param = some buf ∧ u.len = q.length ∧ Buffer.slice0 buf u.len = q ∧
      u.calls = s.calls ++ (if o1 = 0x1F then [(Handler.naws, p)] else [])
                        ++ (if o2 = 0x1F then [(Handler.naws, q)] else []) ∧
      u.decode = DECODE_IDLE ∧ payloadOf u.emitted = payloadOf s.emitted) := by
  have htp : p.take 128 = p := List.take_of_length_le hpl
  have htq : q.take 128 = q := List.take_of_length_le hql
  obtain ⟨t1, buf1, hrun1, hdec1, _, hopt1, hpar1, _, hl1, hslice1, hcalls1, _, _, _, hpay1, _⟩ :=
    runSession_subnegotiation_fields s o1 p hidle hp
  obtain ⟨t2, buf2, hrun2, hdec2, _, hopt2, hpar2, _, hl2, hslice2, hcalls2, _, _, _, hpay2, _⟩ :=
    runSession_subnegotiation_fields t1 o2 q hdec1 hq
  rw [htp] at hslice1 hcalls1
  rw [htq] at hslice2 hcalls2
  constructor
  · have hfeed := onData_of_runSession_silent _ _ _ hrun1
    rw [← feed_single] at hfeed
    exact ⟨t1, buf1, hfeed, hopt1, hpar1, by rw [hl1]; exact hslice1, hcalls1⟩
  · have hrun := runSession_append s ([255, 250, o1] ++ p ++ [255, 240])
      ([255, 250, o2] ++ q ++ [255, 240])
    rw [hrun1] at hrun
    simp only at hrun
    rw [hrun2] at hrun
    simp only [List.append_nil] at hrun
    have hfeed := onData_of_runSession_silent _ _ _ hrun
    rw [← feed_single] at hfeed
    refine ⟨t2, buf2, hfeed, hopt2, hpar2, hl2, by rw [hl2]; exact hslice2, ?_, hdec2, ?_⟩
    · rw [hcalls2, hcalls1]
    · rw [hpay2, hpay1]

/-- C19 (amended) at the constructed session: NAWS with 00 64 00 28, then NAWS with the
shorter 00 50. -/
theorem C19_buffer_reset_per_subnegotiation_witness :
    freshSession.decode = DECODE_IDLE ∧ (∀ b ∈ ([0x00, 0x64, 0x00, 0x28] : List Nat), b ≠ 0xFF) ∧
    (∀ b ∈ ([0x00, 0x50] : List Nat), b ≠ 0xFF) ∧
    ([0x00, 0x64, 0x00, 0x28] : List Nat).length ≤ 128 ∧ ([0x00, 0x50] : List Nat).length ≤ 128 ∧
    (∃ u buf, feed freshSession [[0xFF, 0xFA, 0x1F] ++ [0x00, 0x64, 0x00, 0x28] ++ [0xFF, 0xF0]]
        = .ok u ∧ u.option = 0x1F ∧
      u.param = some buf ∧ Buffer.slice0 buf u.len = [0x00, 0x64, 0x00, 0x28] ∧
      u.calls = freshSession.calls ++
        (if 0x1F = 0x1F then [(Handler.naws, [0x00, 0x64, 0x00, 0x28])] else [])) ∧
    (∃ u buf, feed freshSession
        [[0xFF, 0xFA, 0x1F] ++ [0x00, 0x64, 0x00, 0x28] ++ [0xFF, 0xF0]
          ++ ([0xFF, 0xFA, 0x1F] ++ [0x00, 0x50] ++ [0xFF, 0xF0])] = .ok u ∧
      u.option = 0x1F ∧ u.param = some buf ∧ u.len = ([0x00, 0x50] : List Nat).length ∧
      Buffer.slice0 buf u.len = [0x00, 0x50] ∧
      u.calls = freshSession.calls ++
          (if 0x1F = 0x1F then [(Handler.naws, [0x00, 0x64, 0x00, 0x28])] else [])
          ++ (if 0x1F = 0x1F then [(Handler.naws, [0x00, 0x50])] else []) ∧
      u.decode = DECODE_IDLE ∧ payloadOf u.emitted = payloadOf freshSession.emitted) :=
  ⟨rfl, by decide, by decide, by decide, by decide,
    C19_buffer_reset_per_subnegotiation freshSession 0x1F 0x1F [0x00, 0x64, 0x00, 0x28]
      [0x00, 0x50] rfl (by decide) (by decide) (by decide) (by decide)⟩


/-! ## Invariants over arbitrary input -/

theorem nawsResult_emitted (s : TelnetSession) (data : List Nat) :
    (nawsResult s data).emitted = s.emitted ∨
      (nawsResult s data).emitted = s.emitted ++ [Event.resize] := by
  unfold nawsResult
  split_ifs
  · exact Or.inl rfl
  · exact Or.inr rfl

/-- A decoder step keeps the decode state among the seven defined ones and
emits at most one event, a `'resize'`. -/
theorem stepSession_shape (s t : TelnetSession) (char : Nat) (h : stepSession s char = .ok t) :
    (s.decode ≤ 6 → t.decode ≤ 6) ∧
      (t.emitted = s.emitted ∨ t.emitted = s.emitted ++ [Event.resize]) := by
  revert h
  apply stepSession_cases
    (fun r => r = .ok t → (s.decode ≤ 6 → t.decode ≤ 6) ∧
      (t.emitted = s.emitted ∨ t.emitted = s.emitted ++ [Event.resize])) s char
  all_goals
    intros
    rename_i heq
    first
      | (cases heq; done)
      | (injection heq with heq
         subst heq
         first
           | exact ⟨fun h => h, Or.inl rfl⟩
           | exact ⟨fun _ => by simp, Or.inl rfl⟩
           | exact ⟨fun _ => by simp, nawsResult_emitted _ _⟩)

theorem runSession_shape (s t : TelnetSession) (data out : List Nat)
    (h : runSession s data = .ok (t, out)) :
    (s.decode ≤ 6 → t.decode ≤ 6) ∧ (∃ k, t.emitted = s.emitted ++ List.replicate k Event.resize) ∧
      out.Sublist data ∧ ∀ b ∈ out, b ≠ 255 := by
  induction data generalizing s out with
  | nil =>
    simp only [runSession_nil, Except.ok.injEq, Prod.mk.injEq] at h
    obtain ⟨h1, h2⟩ := h
    subst h1 h2
    exact ⟨fun h => h, ⟨0, by simp⟩, List.Sublist.refl _, by simp⟩
  | cons x xs ih =>
    cases hstep : stepSession s x with
    | error e => simp [runSession, hstep] at h
    | ok s1 =>
      cases hrun : runSession s1 xs with
      | error e => simp [runSession, hstep, hrun] at h
      | ok r =>
        obtain ⟨t1, o1⟩ := r
        simp only [runSession, hstep, hrun, Except.ok.injEq, Prod.mk.injEq] at h
        obtain ⟨h1, h2⟩ := h
        subst h1 h2
        obtain ⟨hdec1, hem1⟩ := stepSession_shape s s1 x hstep
        obtain ⟨hdec, ⟨k, hk⟩, hsub, hclean⟩ := ih s1 o1 hrun
        refine ⟨fun h => hdec (hdec1 h), ?_, ?_, ?_⟩
        · rcases hem1 with he | he
          · exact ⟨k, by rw [hk, he]⟩
          · refine ⟨k + 1, ?_⟩
            rw [hk, he, List.append_assoc]
            rfl
        · unfold payloadByte
          split_ifs
          · exact List.Sublist.cons₂ x hsub
          · exact List.Sublist.cons x hsub
        · intro b hb
          unfold payloadByte at hb
          split_ifs at hb with hc
          · rcases List.mem_cons.1 hb with hbx | hbo
            · rw [hbx]
              have := hc.2
              rwa [IAC_eq] at this
            · exact hclean b hbo
          · exact hclean b hb

/-- The `'data'` callback on one chunk, from a state whose subnegotiation buffer
exists when needed: it returns, the payload bytes met are a subsequence of the
chunk without 0xFF, and the events it adds are `'resize'` events followed by at
most one `'data'` event, which carries the payload. -/
theorem onData_shape (s : TelnetSession) (data : List Nat) (halloc : Allocated s) :
    ∃ u t out k, onData s data = .ok u ∧ runSession s data = .ok (t, out) ∧ Allocated u ∧
      (s.decode ≤ 6 → u.decode ≤ 6) ∧ out.Sublist data ∧ (∀ b ∈ out, b ≠ 255) ∧
      u.emitted = s.emitted ++ List.replicate k Event.resize
        ++ (if out = [] then [] else [Event.data out]) := by
  obtain ⟨t, out, hrun, hta⟩ := runSession_allocated s data halloc
  obtain ⟨hdec, ⟨k, hk⟩, hsub, hclean⟩ := runSession_shape s t data out hrun
  have hon := onData_eq s data
  rw [hrun] at hon
  simp only at hon
  by_cases hout : out = []
  · rw [if_neg (by simpa using hout)] at hon
    exact ⟨t, t, out, k, hon, hrun, hta, hdec, hsub, hclean, by simp [hout, hk]⟩
  · rw [if_pos hout] at hon
    exact ⟨_, t, out, k, hon, hrun, hta, hdec, hsub, hclean, by simp [hout, hk]⟩


theorem feed_shape (chunks : List (List Nat)) (s : TelnetSession) (halloc : Allocated s)
    (hclean : ∀ payload, Event.data payload ∈ s.emitted → ∀ b ∈ payload, b ≠ 255) :
    ∃ u, feed s chunks = .ok u ∧ Allocated u ∧ (s.decode ≤ 6 → u.decode ≤ 6) ∧
      ∀ payload, Event.data payload ∈ u.emitted → ∀ b ∈ payload, b ≠ 255 := by
  induction chunks generalizing s with
  | nil => exact ⟨s, rfl, halloc, fun h => h, hclean⟩
  | cons d rest ih =>
    obtain ⟨s1, t, out, k, hon, _, ha1, hdec1, _, hout, hem⟩ := onData_shape s d halloc
    have hclean1 : ∀ payload, Event.data payload ∈ s1.emitted → ∀ b ∈ payload, b ≠ 255 := by
      intro payload hmem
      rw [hem] at hmem
      rcases List.mem_append.1 hmem with h | h
      · rcases List.mem_append.1 h with h | h
        · exact hclean payload h
        · exact absurd (List.eq_of_mem_replicate h) (by simp)
      · by_cases ho : out = []
        · simp [ho] at h
        · rw [if_neg ho, List.mem_singleton] at h
          injection h with h
          rw [h]
          exact hout
    obtain ⟨u, hu, hau, hdecu, hcleanu⟩ := ih s1 ha1 hclean1
    exact ⟨u, by rw [feed_cons_ok _ _ _ _ hon, hu], hau, fun h => hdecu (hdec1 h), hcleanu⟩

/-- C17: whatever bytes arrive in whatever chunks, the `'data'` callback of a
constructed session returns on every chunk without exception; afterwards the
decode state is one of the seven defined states and, when it is SUBNEGOTIATION
or SUBNEGOTIATION_END, the subnegotiation buffer exists.  The NAWS handler never
throws either: with fewer than 4 bytes it returns at once, and with 4 bytes or
more both 16-bit reads are within the payload. -/
theorem C17_decoding_never_throws (chunks : List (List Nat)) :
    construct = .ok freshSession ∧
    (∃ u, feed freshSession chunks = .ok u ∧
      u.decode ∈ [DECODE_IDLE, DECODE_COMMAND, DECODE_OPTION, DECODE_SUBNEGOTIATION,
                  DECODE_SUBNEGOTIATION_END, DECODE_IGNORE_2, DECODE_IGNORE_1] ∧
      ((u.decode = DECODE_SUBNEGOTIATION ∨ u.decode = DECODE_SUBNEGOTIATION_END) →
        ∃ buf, u.param = some buf)) ∧
    (∀ (s : TelnetSession) (data : List Nat),
      (∃ t, naws s data = .ok t) ∧ (data.length < 4 → naws s data = .ok s) ∧
      (4 ≤ data.length → ∃ columns rows,
        readUInt16BE data 0 = .ok columns ∧ readUInt16BE data 2 = .ok rows)) := by
  refine ⟨construct_eq, ?_, ?_⟩
  · obtain ⟨u, hu, hau, hdec, _⟩ := feed_shape chunks freshSession (by decide)
      (by simp [freshSession, fieldDefaults])
    have hle : u.decode ≤ 6 := hdec (by decide)
    refine ⟨u, hu, ?_, ?_⟩
    · have hcases : u.decode = 0 ∨ u.decode = 1 ∨ u.decode = 2 ∨ u.decode = 3 ∨ u.decode = 4 ∨
          u.decode = 5 ∨ u.decode = 6 := by omega
      simpa using hcases
    · intro hsub
      have hne := hau hsub
      cases hpar : u.param with
      | none => exact absurd hpar hne
      | some buf => exact ⟨buf, rfl⟩
  · intro s data
    refine ⟨⟨_, naws_eq s data⟩, ?_, ?_⟩
    · intro hlt
      rw [naws_eq, nawsResult, if_pos hlt]
    · intro hge
      have h0 : 0 + 2 ≤ data.length := by omega
      have h2 : 2 + 2 ≤ data.length := by omega
      refine ⟨data.getD 0 0 * 256 + data.getD (0 + 1) 0, data.getD 2 0 * 256 + data.getD (2 + 1) 0,
        ?_, ?_⟩
      · simp only [readUInt16BE, h0, if_true]
      · simp only [readUInt16BE, h2, if_true]

/-- C18: processing one chunk emits at most one `'data'` event, after every other
event of that chunk (these are `'resize'` events); it carries the payload bytes
of the chunk met by the decoder, a subsequence of the chunk in input order, and
so has between 1 byte and the length of the chunk; when the chunk brings no
payload byte, as an empty chunk does, no `'data'` event is emitted. -/
theorem C18_one_data_event_per_chunk (s : TelnetSession) (data : List Nat)
    (halloc : Allocated s) :
    ∃ u out k, onData s data = .ok u ∧ (∃ t, runSession s data = .ok (t, out)) ∧
      u.emitted = s.emitted ++ List.replicate k Event.resize
        ++ (if out = [] then [] else [Event.data out]) ∧
      out.Sublist data ∧ out.length ≤ data.length ∧ (out ≠ [] → 1 ≤ out.length) ∧
      (data = [] → out = [] ∧ u = s) := by
  obtain ⟨u, t, out, k, hon, hrun, _, _, hsub, _, hem⟩ := onData_shape s data halloc
  refine ⟨u, out, k, hon, ⟨t, hrun⟩, hem, hsub, hsub.length_le, ?_, ?_⟩
  · intro hne
    cases out with
    | nil => exact absurd rfl hne
    | cons x xs => simp
  · intro hnil
    subst hnil
    have hout : out = [] := List.sublist_nil.1 hsub
    refine ⟨hout, ?_⟩
    have h0 : onData s [] = .ok s := rfl
    rw [h0] at hon
    injection hon with hon
    exact hon.symm

/-- C18 at the constructed session: one chunk with the payload byte 0x68, the
command IAC WILL ECHO and the payload byte 0x69. -/
theorem C18_one_data_event_per_chunk_witness :
    Allocated freshSession ∧
    ∃ u out k, onData freshSession [0x68, 0xFF, 0xFB, 0x01, 0x69] = .ok u ∧
      (∃ t, runSession freshSession [0x68, 0xFF, 0xFB, 0x01, 0x69] = .ok (t, out)) ∧
      u.emitted = freshSession.emitted ++ List.replicate k Event.resize
        ++ (if out = [] then [] else [Event.data out]) ∧
      out.Sublist [0x68, 0xFF, 0xFB, 0x01, 0x69] ∧
      out.length ≤ ([0x68, 0xFF, 0xFB, 0x01, 0x69] : List Nat).length ∧
      (out ≠ [] → 1 ≤ out.length) ∧
      (([0x68, 0xFF, 0xFB, 0x01, 0x69] : List Nat) = [] → out = [] ∧ u = freshSession) :=
  ⟨by decide, C18_one_data_event_per_chunk freshSession [0x68, 0xFF, 0xFB, 0x01, 0x69] (by decide)⟩

/-- C20: no `'data'` event ever carries the byte 0xFF.  From any state whose
subnegotiation buffer exists when needed and whose earlier `'data'` events are
free of 0xFF, arbitrary chunks are decoded into `'data'` events free of 0xFF.
In particular, from the idle state `IAC IAC b` is taken as the command IAC with
option byte `b`: nothing is emitted and the decoder is idle again. -/
theorem C20_no_iac_in_payload (s : TelnetSession) (chunks : List (List Nat)) (b : Nat)
    (halloc : Allocated s)
    (hclean : ∀ payload, Event.data payload ∈ s.emitted → ∀ x ∈ payload, x ≠ 0xFF) :
    (∃ u, feed s chunks = .ok u ∧
      ∀ payload, Event.data payload ∈ u.emitted → ∀ x ∈ payload, x ≠ 0xFF) ∧
    (s.decode = DECODE_IDLE →
      ∃ u, feed s [[0xFF, 0xFF, b]] = .ok u ∧ u.emitted = s.emitted ∧ u.decode = DECODE_IDLE ∧
        u.command = 0xFF ∧ u.option = b) := by
  constructor
  · obtain ⟨u, hu, _, _, hcl⟩ := feed_shape chunks s halloc hclean
    exact ⟨u, hu, hcl⟩
  · intro hidle
    have hrun := runSession_negotiation s 0xFF b hidle (by decide) (by decide)
    have hfeed := onData_of_runSession_silent _ _ _ hrun
    rw [← feed_single] at hfeed
    exact ⟨_, hfeed, rfl, rfl, rfl, rfl⟩

/-- C20 at the constructed session: the chunks 0x41 IAC and IAC 0x42 0x43 emit
0x41 and 0x43 only, and IAC IAC 0x42 in one chunk emits nothing. -/
theorem C20_no_iac_in_payload_witness :
    Allocated freshSession ∧
    (∀ payload, Event.data payload ∈ freshSession.emitted → ∀ x ∈ payload, x ≠ 0xFF) ∧
    (∃ u, feed freshSession [[0x41, 0xFF], [0xFF, 0x42, 0x43]] = .ok u ∧
      ∀ payload, Event.data payload ∈ u.emitted → ∀ x ∈ payload, x ≠ 0xFF) ∧
    (freshSession.decode = DECODE_IDLE →
      ∃ u, feed freshSession [[0xFF, 0xFF, 0x42]] = .ok u ∧ u.emitted = freshSession.emitted ∧
        u.decode = DECODE_IDLE ∧ u.command = 0xFF ∧ u.option = 0x42) :=
  ⟨by decide, by simp [freshSession, fieldDefaults],
    C20_no_iac_in_payload freshSession [[0x41, 0xFF], [0xFF, 0x42, 0x43]] 0x42 (by decide)
      (by simp [freshSession, fieldDefaults])⟩

end TelnetTty
